import Mathlib

/-!
# Verification of the BadgerDB buffer manager (`src/BufMgr-2021/src/buffer.cpp`)

A shallow embedding of the buffer-pool manager: the clock replacement scan
(`allocBuf`), the fetch path (`readPage`), `unPinPage`, `allocPage`,
`flushFile` and `disposePage`, together with the external collaborators the
source calls into (the `File` abstraction and the page-table hash index).

Machine integers of the source (`FrameId`, `PageId`, pin counts — all
`std::uint32_t`) are modelled as `Nat` with an explicit `% 2^32` at the two
places where the source can actually wrap (the clock-hand increment and the
pin-count increment).  Fallible operations return `Except`, and the two
operations whose source contains an unbounded `while` loop additionally take
a fuel parameter and return `Option` (`none` = the loop has not finished
within `fuel` iterations).

The source files `buffer.h` (holding `BufDesc::Set` / `BufDesc::clear`) and
the hash-table implementation are not part of the repository snapshot; those
few operations are modelled from the specification and are marked
`Modelled from the spec:` in their doc comments.  Everything else is a direct
translation of `buffer.cpp`.
-/

namespace BufMgrVerify

abbrev FrameId := Nat
abbrev PageId := Nat

/-- File identity.  The C++ `File` collaborator is compared by identity in
`flushFile`; we model a file as a numeric identifier.  `0` encodes the
default-constructed `File()` that sits in a descriptor that was never `Set`
(or was `clear`ed); real open files have a positive identifier. -/
abbrev FileId := Nat

/-- A disk page: a fixed-size byte container with its page number embedded
(`Page::page_number()`).  The payload is abstracted to a single `Nat`. -/
structure Page where
  page_number : PageId
  data : Nat
deriving DecidableEq, Repr

instance : Inhabited Page := ⟨⟨0, 0⟩⟩

/-- One buffer-frame descriptor (`BufDesc` of `buffer.h`). -/
structure BufDesc where
  frameNo : FrameId
  file : FileId
  pageNo : PageId
  valid : Bool
  refbit : Bool
  dirty : Bool
  pinCnt : Nat
deriving DecidableEq, Repr

instance : Inhabited BufDesc := ⟨⟨0, 0, 0, false, false, false, 0⟩⟩

/-- Modelled from the spec: `BufDesc::Set(file, pageNo)` lives in `buffer.h`,
which is not under `src/`.  Spec §3: "A descriptor's occupied identity is set
by a `Set(file, pageNo)` operation (marks valid, resets dirty/refbit, sets
pinCount=1)". -/
def BufDesc.Set (d : BufDesc) (f : FileId) (p : PageId) : BufDesc :=
  { d with file := f, pageNo := p, valid := true, refbit := false,
           dirty := false, pinCnt := 1 }

/-- Modelled from the spec: `BufDesc::clear` lives in `buffer.h`, which is not
under `src/`.  Spec §3: "cleared by a `Clear()` operation (marks invalid,
resets all transient fields)"; the reset values are false/false/0 and the
file reverts to the default `File()` (encoded `0`). -/
def BufDesc.clear (d : BufDesc) : BufDesc :=
  { d with file := 0, pageNo := 0, valid := false, refbit := false,
           dirty := false, pinCnt := 0 }

/-! ## The page-table hash index

The `BufHashTbl` implementation is not under `src/`; it is modelled from the
spec (§2: "maps (file identity, page number) → frame index.  Supports insert,
lookup, remove; lookup failure is a distinguishable outcome", §4.1: "Remove
the victim's (file, pageNo) entry from the PageTable (tolerate "not found"
as a no-op)").  We use an association list. -/

abbrev HashTable := List ((FileId × PageId) × FrameId)

def htLookup (ht : HashTable) (f : FileId) (p : PageId) : Option FrameId :=
  (ht.find? (fun e => e.1 = (f, p))).map (·.2)

def htInsert (ht : HashTable) (f : FileId) (p : PageId) (fr : FrameId) :
    HashTable :=
  ((f, p), fr) :: ht

def htRemove (ht : HashTable) (f : FileId) (p : PageId) : HashTable :=
  ht.filter (fun e => ¬ e.1 = (f, p))

/-! ## The file collaborator

Modelled from the spec (§6, the `File` abstraction is explicitly out of
scope of the repository and treated as an external collaborator):
`readPage` fails if the page does not exist, `writePage` "overwrites the
page matching content's embedded page number", `allocatePage` "appends a new
page, returns its initial content and assigned number" (typically zeroed),
`deletePage` "must be safe to call even if the page was never buffered". -/

structure Disk where
  pages : List ((FileId × PageId) × Page)
  nextPageNo : List (FileId × PageId)
deriving DecidableEq, Repr

/-- The page number the collaborator will assign next for file `f`
(numbering starts at 1; `0` is the `INVALID_PAGE` sentinel). -/
def Disk.next (d : Disk) (f : FileId) : PageId :=
  ((d.nextPageNo.find? (fun e => e.1 = f)).map (·.2)).getD 1

def Disk.readPage (d : Disk) (f : FileId) (p : PageId) : Option Page :=
  (d.pages.find? (fun e => e.1 = (f, p))).map (·.2)

def Disk.writePage (d : Disk) (f : FileId) (pg : Page) : Disk :=
  { d with pages := d.pages.map (fun e =>
      if e.1 = (f, pg.page_number) then ((f, pg.page_number), pg) else e) }

def Disk.allocatePage (d : Disk) (f : FileId) : Page × Disk :=
  let no := d.next f
  (⟨no, 0⟩,
   { pages := d.pages ++ [((f, no), ⟨no, 0⟩)],
     nextPageNo := (f, no + 1) :: d.nextPageNo.filter (fun e => ¬ e.1 = f) })

def Disk.deletePage (d : Disk) (f : FileId) (p : PageId) : Disk :=
  { d with pages := d.pages.filter (fun e => ¬ e.1 = (f, p)) }

/-- Calls made on the file collaborator, newest first.  This is the
"collaborator call counter" of spec §8: a claim of the form "no disk read
occurs" is the statement that the trace is unchanged. -/
inductive IOEvent where
  | readPage (f : FileId) (p : PageId)
  | writePage (f : FileId) (pg : Page)
  | allocatePage (f : FileId)
  | deletePage (f : FileId) (p : PageId)
deriving DecidableEq, Repr

/-! ## The buffer manager state (`BufMgr` of `buffer.cpp`) -/

structure BufMgr where
  numBufs : Nat
  hashTable : HashTable
  bufDescTable : List BufDesc
  bufPool : List Page
  clockHand : Nat
deriving DecidableEq, Repr

/-- `BufMgr::BufMgr(std::uint32_t bufs)` (buffer.cpp:28-39).
`clockHand = bufs - 1` on `uint32` wraps to `2^32 - 1` when `bufs = 0`. -/
def BufMgr.init (bufs : Nat) : BufMgr :=
  { numBufs := bufs
    hashTable := []
    bufDescTable := (List.range bufs).map
      (fun i => { (default : BufDesc) with frameNo := i, valid := false })
    bufPool := List.replicate bufs default
    clockHand := if bufs = 0 then 2 ^ 32 - 1 else bufs - 1 }

/-- `BufMgr::advanceClock` (buffer.cpp:43-50): `clockHand++` on `uint32`,
then reset to `0` when `clockHand >= numBufs`. -/
def BufMgr.advanceClock (m : BufMgr) : BufMgr :=
  let h := (m.clockHand + 1) % 2 ^ 32
  { m with clockHand := if m.numBufs ≤ h then 0 else h }

/-- The whole system: manager, collaborator-owned disk, call trace. -/
structure SysState where
  mgr : BufMgr
  disk : Disk
  trace : List IOEvent
deriving DecidableEq, Repr

def SysState.descOf (s : SysState) (i : Nat) : BufDesc :=
  s.mgr.bufDescTable.getD i default

/-- `advanceClock()` applied to the whole system state. -/
def SysState.adv (s : SysState) : SysState :=
  { s with mgr := s.mgr.advanceClock }

def SysState.poolOf (s : SysState) (i : Nat) : Page :=
  s.mgr.bufPool.getD i default

def SysState.setDesc (s : SysState) (i : Nat) (d : BufDesc) : SysState :=
  { s with mgr := { s.mgr with bufDescTable := s.mgr.bufDescTable.set i d } }

def SysState.setHt (s : SysState) (ht : HashTable) : SysState :=
  { s with mgr := { s.mgr with hashTable := ht } }

def SysState.fileRead (s : SysState) (f : FileId) (p : PageId) :
    Option Page × SysState :=
  (s.disk.readPage f p, { s with trace := .readPage f p :: s.trace })

def SysState.fileWrite (s : SysState) (f : FileId) (pg : Page) : SysState :=
  { s with disk := s.disk.writePage f pg, trace := .writePage f pg :: s.trace }

def SysState.fileAllocate (s : SysState) (f : FileId) : Page × SysState :=
  let r := s.disk.allocatePage f
  (r.1, { s with disk := r.2, trace := .allocatePage f :: s.trace })

def SysState.fileDelete (s : SysState) (f : FileId) (p : PageId) : SysState :=
  { s with disk := s.disk.deletePage f p, trace := .deletePage f p :: s.trace }

/-- The exception kinds thrown by `buffer.cpp`. -/
inductive BufError where
  | bufferExceeded
  | pageNotPinned (f : FileId) (p : PageId) (fr : FrameId)
  | pagePinned (f : FileId) (p : PageId) (fr : FrameId)
  | badBuffer (fr : FrameId) (dirty valid refbit : Bool)
  | ioError
deriving DecidableEq, Repr

/-! ## allocBuf (buffer.cpp:60-127)

The source's `while (true)` clock scan.  `startingFrame` and `candidateSeen`
are the loop-carried locals of the source; the fuel bounds the number of
iterations and `none` means the loop has not returned within that bound
(so `∀ fuel, ... = none` is non-termination). -/

/-- One iteration of the source's `while (true)` body.  `.inl` means the
iteration returns out of the loop (with the frame id or the thrown
exception), `.inr (cand', s')` means `continue` with the updated
`candidateSeen` flag and state. -/
def allocBufStep (startingFrame : FrameId) (candidateSeen : Bool)
    (s : SysState) : (Except BufError FrameId × SysState) ⊕ (Bool × SysState) :=
  -- Advance the clock hand
  let t := s.adv
  if t.mgr.clockHand = startingFrame ∧ candidateSeen = false then
    .inl (.error .bufferExceeded, t)
  else
    let d := t.descOf t.mgr.clockHand
    -- Valid set?
    if d.valid = false then .inl (.ok t.mgr.clockHand, t)
    -- refbit set?
    else if d.refbit then
      .inr (true, t.setDesc t.mgr.clockHand { d with refbit := false })
    -- page pinned?
    else if 0 < d.pinCnt then .inr (candidateSeen, t)
    else
      -- dirty bit set?  flush through the collaborator, then clear dirty
      let t : SysState :=
        if d.dirty then
          (t.fileWrite d.file (t.poolOf d.frameNo)).setDesc t.mgr.clockHand
            { d with dirty := false }
        else t
      -- remove the appropriate entry from the hash table
      let t := t.setHt (htRemove t.mgr.hashTable d.file d.pageNo)
      .inl (.ok t.mgr.clockHand, t)

def allocBufLoop (startingFrame : FrameId) :
    Nat → Bool → SysState → Option (Except BufError FrameId × SysState)
  | 0, _, _ => none
  | fuel + 1, candidateSeen, s =>
    match allocBufStep startingFrame candidateSeen s with
    | .inl r => some r
    | .inr c => allocBufLoop startingFrame fuel c.1 c.2

def allocBuf (fuel : Nat) (s : SysState) :
    Option (Except BufError FrameId × SysState) :=
  allocBufLoop s.mgr.clockHand fuel false s

/-! ## readPage (buffer.cpp:140-179) -/

def readPage (fuel : Nat) (s : SysState) (file : FileId) (pageNo : PageId) :
    Option (Except BufError FrameId × SysState) :=
  match htLookup s.mgr.hashTable file pageNo with
  | some frameNo =>
    -- hit: set refbit, increment pinCnt (uint32), return existing frame
    let d := s.descOf frameNo
    some (.ok frameNo,
      s.setDesc frameNo
        { d with refbit := true, pinCnt := (d.pinCnt + 1) % 2 ^ 32 })
  | none =>
    match allocBuf fuel s with
    | none => none
    | some (.error e, s') => some (.error e, s')
    | some (.ok frameNo, s') =>
      -- bufPool[frameNo] = file.readPage(pageNo)
      match s'.fileRead file pageNo with
      | (none, s') => some (.error .ioError, s')
      | (some pg, s') =>
        let s' : SysState :=
          { s' with mgr := { s'.mgr with bufPool := s'.mgr.bufPool.set frameNo pg } }
        let s' := s'.setHt (htInsert s'.mgr.hashTable file pageNo frameNo)
        some (.ok frameNo, s'.setDesc frameNo ((s'.descOf frameNo).Set file pageNo))

/-! ## unPinPage (buffer.cpp:191-212)

Note the source's line 208 is the unconditional assignment
`bufDesc->dirty = dirty;`. -/

def unPinPage (s : SysState) (file : FileId) (pageNo : PageId) (dirty : Bool) :
    Except BufError Unit × SysState :=
  match htLookup s.mgr.hashTable file pageNo with
  | none => (.ok (), s)
  | some frameNo =>
    let d := s.descOf frameNo
    if d.pinCnt = 0 then (.error (.pageNotPinned file pageNo frameNo), s)
    else (.ok (), s.setDesc frameNo { d with pinCnt := d.pinCnt - 1, dirty := dirty })

/-! ## allocPage (buffer.cpp:224-251)

Note the source never stores the freshly allocated page into
`bufPool[frameNo]`; the local `Page newPage` is only consulted for its
number. -/

def allocPage (fuel : Nat) (s : SysState) (file : FileId) :
    Option (Except BufError (PageId × FrameId) × SysState) :=
  match allocBuf fuel s with
  | none => none
  | some (.error e, s') => some (.error e, s')
  | some (.ok frameNo, s') =>
    let r := s'.fileAllocate file
    let pageNo := r.1.page_number
    let s' := r.2
    let s' := s'.setHt (htInsert s'.mgr.hashTable file pageNo frameNo)
    some (.ok (pageNo, frameNo),
      s'.setDesc frameNo ((s'.descOf frameNo).Set file pageNo))

/-! ## flushFile (buffer.cpp:263-308) -/

def flushFileGo (file : FileId) :
    List Nat → SysState → Except BufError Unit × SysState
  | [], s => (.ok (), s)
  | i :: rest, s =>
    let d := s.descOf i
    if d.file = file then
      -- check if page is pinned
      if ¬ d.pinCnt = 0 then (.error (.pagePinned file d.pageNo i), s)
      -- check if page is valid
      else if d.valid = false then
        (.error (.badBuffer i d.dirty d.valid d.refbit), s)
      -- check if page's dirty bit is set
      else if d.dirty then
        let s := s.fileWrite d.file (s.poolOf i)
        let s := s.setDesc i { d with dirty := false }
        let s := s.setHt (htRemove s.mgr.hashTable file d.pageNo)
        let s := s.setDesc i ({ d with dirty := false }.clear)
        flushFileGo file rest s
      else flushFileGo file rest s
    else flushFileGo file rest s

def flushFile (s : SysState) (file : FileId) : Except BufError Unit × SysState :=
  flushFileGo file (List.range s.mgr.numBufs) s

/-! ## disposePage (buffer.cpp:318-334) -/

def disposePage (s : SysState) (file : FileId) (pageNo : PageId) : SysState :=
  let s :=
    match htLookup s.mgr.hashTable file pageNo with
    | none => s
    | some frameNo =>
      let s := s.setDesc frameNo (s.descOf frameNo).clear
      s.setHt (htRemove s.mgr.hashTable file pageNo)
  s.fileDelete file pageNo

/-! ## The public surface as a single operation type (for the invariant) -/

inductive PubOp where
  | read (f : FileId) (p : PageId)
  | unpin (f : FileId) (p : PageId) (d : Bool)
  | newPg (f : FileId)
  | flush (f : FileId)
  | dispose (f : FileId) (p : PageId)
deriving DecidableEq, Repr

def runOp (op : PubOp) (fuel : Nat) (s : SysState) :
    Option (Except BufError Unit × SysState) :=
  match op with
  | .read f p =>
    (readPage fuel s f p).map (fun r => (r.1.map (fun _ => ()), r.2))
  | .unpin f p d => some (unPinPage s f p d)
  | .newPg f =>
    (allocPage fuel s f).map (fun r => (r.1.map (fun _ => ()), r.2))
  | .flush f => some (flushFile s f)
  | .dispose f p => some (.ok (), disposePage s f p)

/-- Run a sequence of public operations, insisting that each one completes
normally (used to exhibit reachable states). -/
def runSeq (fuel : Nat) : List PubOp → SysState → Option SysState
  | [], s => some s
  | op :: rest, s =>
    match runOp op fuel s with
    | some (.ok _, s') => runSeq fuel rest s'
    | _ => none

/-- Repeated `unPinPage(file, pageNo, false)` calls, stopping at the first
failure. -/
def unpinSeq (file : FileId) (pageNo : PageId) :
    Nat → SysState → Except BufError Unit × SysState
  | 0, s => (.ok (), s)
  | k + 1, s =>
    match unPinPage s file pageNo false with
    | (.ok _, s') => unpinSeq file pageNo k s'
    | r => r

/-! ## The consistency invariant between PageTable, descriptors and disk -/

/-- The internal consistency invariant of the buffer manager, holding at rest
(between public operations).  It ties the page table to the descriptor
array (spec §3) and records that the collaborator only ever hands out fresh
page numbers, so a freshly allocated page can never collide with a resident
entry. -/
structure Inv (s : SysState) : Prop where
  numPos : 0 < s.mgr.numBufs
  descLen : s.mgr.bufDescTable.length = s.mgr.numBufs
  poolLen : s.mgr.bufPool.length = s.mgr.numBufs
  entBound : ∀ e ∈ s.mgr.hashTable, e.2 < s.mgr.numBufs
  entValid : ∀ e ∈ s.mgr.hashTable, (s.descOf e.2).valid = true
  entFile : ∀ e ∈ s.mgr.hashTable, (s.descOf e.2).file = e.1.1
  entPage : ∀ e ∈ s.mgr.hashTable, (s.descOf e.2).pageNo = e.1.2
  keysND : (s.mgr.hashTable.map Prod.fst).Nodup
  framesND : (s.mgr.hashTable.map Prod.snd).Nodup
  validEnt : ∀ i, i < s.mgr.numBufs → (s.descOf i).valid = true →
    (((s.descOf i).file, (s.descOf i).pageNo), i) ∈ s.mgr.hashTable
  invalidFile : ∀ i, i < s.mgr.numBufs → (s.descOf i).valid = false →
    (s.descOf i).file = 0
  htFresh : ∀ e ∈ s.mgr.hashTable, e.1.2 < s.disk.next e.1.1
  diskFresh : ∀ e ∈ s.disk.pages, e.1.2 < s.disk.next e.1.1

/-- The invariant as it stands right after `allocBuf` has handed out frame
`fr`: everything of `Inv` holds except that `fr` may be a valid frame with
no page-table entry, and no entry points to `fr`. -/
structure InvFree (s : SysState) (fr : FrameId) : Prop where
  numPos : 0 < s.mgr.numBufs
  descLen : s.mgr.bufDescTable.length = s.mgr.numBufs
  poolLen : s.mgr.bufPool.length = s.mgr.numBufs
  frBound : fr < s.mgr.numBufs
  frFree : ∀ e ∈ s.mgr.hashTable, ¬ e.2 = fr
  entBound : ∀ e ∈ s.mgr.hashTable, e.2 < s.mgr.numBufs
  entValid : ∀ e ∈ s.mgr.hashTable, (s.descOf e.2).valid = true
  entFile : ∀ e ∈ s.mgr.hashTable, (s.descOf e.2).file = e.1.1
  entPage : ∀ e ∈ s.mgr.hashTable, (s.descOf e.2).pageNo = e.1.2
  keysND : (s.mgr.hashTable.map Prod.fst).Nodup
  framesND : (s.mgr.hashTable.map Prod.snd).Nodup
  validEnt : ∀ i, i < s.mgr.numBufs → ¬ i = fr → (s.descOf i).valid = true →
    (((s.descOf i).file, (s.descOf i).pageNo), i) ∈ s.mgr.hashTable
  invalidFile : ∀ i, i < s.mgr.numBufs → ¬ i = fr → (s.descOf i).valid = false →
    (s.descOf i).file = 0
  htFresh : ∀ e ∈ s.mgr.hashTable, e.1.2 < s.disk.next e.1.1
  diskFresh : ∀ e ∈ s.disk.pages, e.1.2 < s.disk.next e.1.1

/-- Number of frames whose descriptor has `valid = true`. -/
def validCount (m : BufMgr) : Nat :=
  (List.range m.numBufs).countP (fun i => (m.bufDescTable.getD i default).valid)

/-- The bijection of C6, stated the way the claim states it: each valid
frame's (file, pageNo) has exactly one PageTable entry mapping to that frame
id, at most one entry maps to any frame id, and the PageTable size equals
the number of valid frames. -/
def Bij (m : BufMgr) : Prop :=
  (∀ i, i < m.numBufs → (m.bufDescTable.getD i default).valid = true →
    m.hashTable.count
      (((( m.bufDescTable.getD i default).file,
          (m.bufDescTable.getD i default).pageNo), i)) = 1) ∧
  (∀ i : FrameId, m.hashTable.countP (fun e => e.2 == i) ≤ 1) ∧
  m.hashTable.length = validCount m

/-! ## Concrete states used by the example runs below -/

/-- A freshly constructed system: `BufMgr(n)` over an empty disk. -/
def initialState (n : Nat) : SysState :=
  ⟨BufMgr.init n, ⟨[], []⟩, []⟩

/-- The state reached from `initialState 2` by `newPage`, `newPage`, then a
`fetch` hit on page 1: both frames pinned, frame 0's refbit set. -/
def pinnedState : SysState :=
  { mgr :=
    { numBufs := 2
      hashTable := [((1, 2), 1), ((1, 1), 0)]
      bufDescTable :=
        [⟨0, 1, 1, true, true, false, 2⟩, ⟨1, 1, 2, true, false, false, 1⟩]
      bufPool := [⟨0, 0⟩, ⟨0, 0⟩]
      clockHand := 1 }
    disk :=
    { pages := [((1, 1), ⟨1, 0⟩), ((1, 2), ⟨2, 0⟩)]
      nextPageNo := [(1, 3)] }
    trace := [.allocatePage 1, .allocatePage 1] }

/-- `pinnedState` after the scan's first iteration cleared frame 0's refbit
(clock hand on frame 0). -/
def spinA : SysState :=
  { pinnedState with mgr :=
    { pinnedState.mgr with
      bufDescTable :=
        [⟨0, 1, 1, true, false, false, 2⟩, ⟨1, 1, 2, true, false, false, 1⟩]
      clockHand := 0 } }

/-- `spinA` with the clock hand on frame 1. -/
def spinB : SysState :=
  { spinA with mgr := { spinA.mgr with clockHand := 1 } }

/-- The state reached from `initialState 2` by two `newPage` calls: both
frames pinned, no refbit set. -/
def exhaustedState : SysState :=
  { mgr :=
    { numBufs := 2
      hashTable := [((1, 2), 1), ((1, 1), 0)]
      bufDescTable :=
        [⟨0, 1, 1, true, false, false, 1⟩, ⟨1, 1, 2, true, false, false, 1⟩]
      bufPool := [⟨0, 0⟩, ⟨0, 0⟩]
      clockHand := 1 }
    disk :=
    { pages := [((1, 1), ⟨1, 0⟩), ((1, 2), ⟨2, 0⟩)]
      nextPageNo := [(1, 3)] }
    trace := [.allocatePage 1, .allocatePage 1] }

/-- A pool with an evictable dirty victim: frame 0 holds dirty page (1,1)
with pin count 0, frame 1 holds pinned page (1,2); clock hand on frame 1. -/
def victimState : SysState :=
  { mgr :=
    { numBufs := 2
      hashTable := [((1, 1), 0), ((1, 2), 1)]
      bufDescTable :=
        [⟨0, 1, 1, true, false, true, 0⟩, ⟨1, 1, 2, true, false, false, 1⟩]
      bufPool := [⟨1, 7⟩, ⟨2, 0⟩]
      clockHand := 1 }
    disk :=
    { pages := [((1, 1), ⟨1, 0⟩), ((1, 2), ⟨2, 0⟩)]
      nextPageNo := [(1, 3)] }
    trace := [] }

/-! ## Helper lemmas -/

theorem getD_set_self {α : Type} {l : List α} {i : Nat} {a d : α}
    (h : i < l.length) : (l.set i a).getD i d = a := by
  simp [List.getD_eq_getElem?_getD, List.getElem?_set_eq_of_lt, h]

theorem getD_set_ne {α : Type} {l : List α} {i j : Nat} {a d : α}
    (h : ¬ i = j) : (l.set i a).getD j d = l.getD j d := by
  simp [List.getD_eq_getElem?_getD, List.getElem?_set_ne, h]

theorem htRemove_absent {ht : HashTable} {f : FileId} {p : PageId}
    (h : htLookup ht f p = none) : htRemove ht f p = ht := by
  rw [htLookup, Option.map_eq_none'] at h
  rw [List.find?_eq_none] at h
  rw [htRemove]
  refine List.filter_eq_self.mpr ?_
  intro e he
  simpa using h e he

theorem htLookup_cons {e : (FileId × PageId) × FrameId} {t : HashTable}
    {f : FileId} {p : PageId} :
    htLookup (e :: t) f p = if e.1 = (f, p) then some e.2 else htLookup t f p := by
  by_cases h : e.1 = (f, p)
  · simp [htLookup, List.find?_cons_of_pos, h]
  · simp [htLookup, List.find?_cons_of_neg, h]

theorem htRemove_cons {e : (FileId × PageId) × FrameId} {t : HashTable}
    {f : FileId} {p : PageId} :
    htRemove (e :: t) f p =
      if e.1 = (f, p) then htRemove t f p else e :: htRemove t f p := by
  by_cases h : e.1 = (f, p) <;> simp [htRemove, List.filter_cons, h]

theorem htLookup_remove_ne {ht : HashTable} {f f' : FileId} {p p' : PageId}
    (h : ¬ (f, p) = (f', p')) :
    htLookup (htRemove ht f' p') f p = htLookup ht f p := by
  induction ht with
  | nil => rfl
  | cons e t ih =>
    rw [htRemove_cons, htLookup_cons]
    by_cases he : e.1 = (f', p')
    · have hne : ¬ e.1 = (f, p) := by
        rw [he]; intro hc; exact h hc.symm
      have hne2 : ¬ (f' = f ∧ p' = p) := by
        rintro ⟨rfl, rfl⟩; exact h rfl
      simp [he, hne, hne2, ih]
    · rw [if_neg he, htLookup_cons]
      by_cases hep : e.1 = (f, p)
      · simp [hep]
      · simp [hep, ih]

theorem htLookup_remove_self {ht : HashTable} {f : FileId} {p : PageId} :
    htLookup (htRemove ht f p) f p = none := by
  rw [htLookup, Option.map_eq_none', List.find?_eq_none]
  intro e he hp
  rw [htRemove, List.mem_filter] at he
  simp at hp
  simp [hp] at he

/-! ## C1: allocPage never copies the freshly allocated page into the frame -/

/-- C1, divergence witness: on a fresh pool of two frames, `newPage` reports
the collaborator-assigned page number 1 for frame 0, but the frame's
content still carries page number 0 (the default page): the source never
executes `bufPool[frameNo] = newPage`, so the handle's frame does not hold
the freshly allocated page, and the subsequent `fetch` hit hands back that
same stale content with no disk read. -/
theorem allocPage_content_not_fresh :
    (allocPage 10 (initialState 2) 1).map (fun r => r.1) =
      some (.ok (1, 0)) ∧
    (allocPage 10 (initialState 2) 1).map
      (fun r => (r.2.poolOf 0).page_number) = some 0 ∧
    ¬ (1 : PageId) = 0 ∧
    (allocPage 10 (initialState 2) 1).map
      (fun r => (readPage 10 r.2 1 1).map (fun r' => (r'.1, r'.2.poolOf 0, r'.2.trace))) =
      some (some (.ok 0, ⟨0, 0⟩, [.allocatePage 1])) := by
  refine ⟨rfl, rfl, by decide, rfl⟩

/-! ## C3: the dirty bit is not sticky under unpin -/

/-- C3, divergence witness: in the reachable state `pinnedState` (page (1,1)
pinned twice), `unpin(markDirty=true)` sets the dirty bit, but the
immediately following `unpin(markDirty=false)` clears it again: source line
208 is the unconditional assignment `bufDesc->dirty = dirty`, so a `false`
unpin erases a previously set dirty bit. -/
theorem unPin_false_clears_dirty :
    runSeq 10 [.newPg 1, .newPg 1, .read 1 1] (initialState 2) =
      some pinnedState ∧
    (unPinPage pinnedState 1 1 true).1 = .ok () ∧
    ((unPinPage pinnedState 1 1 true).2.descOf 0).dirty = true ∧
    (unPinPage (unPinPage pinnedState 1 1 true).2 1 1 false).1 = .ok () ∧
    ((unPinPage (unPinPage pinnedState 1 1 true).2 1 1 false).2.descOf 0).dirty
      = false := by
  exact ⟨rfl, rfl, rfl, rfl, rfl⟩

/-! ## C2: the allocation scan does not terminate once a reprieve was granted
and every frame is pinned (`candidateSeen` is never reset) -/

theorem allocBufLoop_succ (start n : Nat) (cand : Bool) (s : SysState) :
    allocBufLoop start (n + 1) cand s =
      match allocBufStep start cand s with
      | .inl r => some r
      | .inr c => allocBufLoop start n c.1 c.2 := rfl

theorem spin_none : ∀ fuel,
    allocBufLoop 1 fuel true spinA = none ∧
    allocBufLoop 1 fuel true spinB = none := by
  intro fuel
  induction fuel with
  | zero => exact ⟨rfl, rfl⟩
  | succ n ih =>
    constructor
    · have h : allocBufLoop 1 (n + 1) true spinA = allocBufLoop 1 n true spinB :=
        rfl
      rw [h]; exact ih.2
    · have h : allocBufLoop 1 (n + 1) true spinB = allocBufLoop 1 n true spinA :=
        rfl
      rw [h]; exact ih.1

theorem allocBuf_diverges_pinned : ∀ fuel, allocBuf fuel pinnedState = none := by
  intro fuel
  cases fuel with
  | zero => rfl
  | succ n =>
    have h : allocBuf (n + 1) pinnedState = allocBufLoop 1 n true spinA := rfl
    rw [h]; exact (spin_none n).1

theorem readPage_miss_allocNone {fuel : Nat} {s : SysState} {f : FileId}
    {p : PageId} (h1 : htLookup s.mgr.hashTable f p = none)
    (h2 : allocBuf fuel s = none) : readPage fuel s f p = none := by
  unfold readPage
  rw [h1, h2]

/-- C2: from the reachable state `pinnedState` (two frames, both pinned,
frame 0's reference bit set by a fetch hit), a request for a third distinct
page never returns, for any iteration bound: the source never resets
`candidateSeen` after a full lap, so once the first lap's reference-bit
reprieve has set it, the scan cycles over the pinned frames forever instead
of failing with `BufferExceededException`. -/
theorem allocScan_diverges_when_all_pinned :
    runSeq 10 [.newPg 1, .newPg 1, .read 1 1] (initialState 2) =
      some pinnedState ∧
    ∀ fuel, readPage fuel pinnedState 1 3 = none := by
  refine ⟨rfl, fun fuel => ?_⟩
  exact readPage_miss_allocNone rfl (allocBuf_diverges_pinned fuel)

/-! ## C10: a `PoolExhausted` failure changes nothing at all -/

theorem adv_set_hand (s : SysState) (x : Nat) :
    { s.adv with mgr := { s.adv.mgr with clockHand := x } } =
      { s with mgr := { s.mgr with clockHand := x } } := by
  cases s with
  | mk mgr disk trace => cases mgr; rfl

theorem set_hand_self (s : SysState) :
    { s with mgr := { s.mgr with clockHand := s.mgr.clockHand } } = s := by
  cases s with
  | mk mgr disk trace => cases mgr; rfl

theorem allocBufStep_error {start : FrameId} {cand : Bool} {s s' : SysState}
    {r : BufError} (h : allocBufStep start cand s = .inl (.error r, s')) :
    cand = false ∧ r = .bufferExceeded ∧
      s' = { s with mgr := { s.mgr with clockHand := start } } := by
  simp only [allocBufStep] at h
  split_ifs at h with h1 h2 h3 h4 h5
  · have hinj := Sum.inl.inj h
    have hr : r = BufError.bufferExceeded :=
      (Except.error.inj (congrArg Prod.fst hinj)).symm
    have hs : s.adv = s' := congrArg Prod.snd hinj
    refine ⟨h1.2, hr, ?_⟩
    rw [← hs, ← adv_set_hand s start, ← h1.1, set_hand_self]
  all_goals exact Except.noConfusion (congrArg Prod.fst (Sum.inl.inj h))

theorem allocBufStep_contin_false {start : FrameId} {cand : Bool}
    {s : SysState} {c : Bool × SysState}
    (h : allocBufStep start cand s = .inr c) (hc : c.1 = false) :
    cand = false ∧ c.2 = s.adv := by
  simp only [allocBufStep] at h
  split_ifs at h with h1 h2 h3 h4
  · have hinj := Sum.inr.inj h
    rw [← hinj] at hc
    exact Bool.noConfusion hc
  · have hinj := Sum.inr.inj h
    rw [← hinj] at hc
    exact ⟨hc, by rw [← hinj]⟩

theorem allocBufLoop_error {start : FrameId} : ∀ (fuel : Nat) (cand : Bool)
    (s s' : SysState) (r : BufError),
    allocBufLoop start fuel cand s = some (.error r, s') →
    cand = false ∧ r = .bufferExceeded ∧
      s' = { s with mgr := { s.mgr with clockHand := start } } := by
  intro fuel
  induction fuel with
  | zero => intro cand s s' r h; exact Option.noConfusion h
  | succ n ih =>
    intro cand s s' r h
    rw [allocBufLoop_succ] at h
    cases hstep : allocBufStep start cand s with
    | inl r0 =>
      rw [hstep] at h
      have h' : some r0 = some (.error r, s') := h
      rw [Option.some.injEq] at h'
      rw [h'] at hstep
      exact allocBufStep_error hstep
    | inr c =>
      rw [hstep] at h
      have h' : allocBufLoop start n c.1 c.2 = some (.error r, s') := h
      obtain ⟨hc, hr, hs⟩ := ih c.1 c.2 s' r h'
      obtain ⟨hcand, hadv⟩ := allocBufStep_contin_false hstep hc
      refine ⟨hcand, hr, ?_⟩
      rw [hs, hadv, adv_set_hand]

/-- C10: whenever the allocation scan fails with `PoolExhausted`
(`BufferExceededException`), the state is bit-for-bit unchanged: no
descriptor field (valid, dirty, pinCount, file, pageNo — in fact not even a
reference bit), no page-table entry, no disk page and no collaborator call
changed, and the clock hand is back at its starting position.  (The failure
can only happen when `candidateSeen` is still false, i.e. when no
reference-bit reprieve was granted during the lap.) -/
theorem allocBuf_exhausted_state_unchanged (fuel : Nat) (s s' : SysState)
    (r : BufError) (h : allocBuf fuel s = some (.error r, s')) :
    r = .bufferExceeded ∧
    s'.mgr.bufDescTable = s.mgr.bufDescTable ∧
    s'.mgr.hashTable = s.mgr.hashTable ∧
    s'.mgr.bufPool = s.mgr.bufPool ∧
    s'.disk = s.disk ∧
    s'.trace = s.trace ∧
    s'.mgr.clockHand = s.mgr.clockHand ∧
    s' = s := by
  obtain ⟨-, hr, hs⟩ := allocBufLoop_error fuel false s s' r h
  have hss : s' = s := hs.trans (set_hand_self s)
  subst hss
  exact ⟨hr, rfl, rfl, rfl, rfl, rfl, rfl, rfl⟩

/-- Witness for C10 at a concrete input: a pool of two pinned frames with no
reference bit set; the scan fails with `BufferExceededException` and returns
the state unchanged. -/
theorem allocBuf_exhausted_state_unchanged_witness :
    allocBuf 10 exhaustedState =
      some (.error .bufferExceeded, exhaustedState) ∧
    exhaustedState = exhaustedState := by
  refine ⟨rfl, ?_⟩
  exact (allocBuf_exhausted_state_unchanged 10 exhaustedState exhaustedState
    .bufferExceeded rfl).2.2.2.2.2.2.2

/-! ## C8: a fetch hit performs no collaborator call and pins exactly once -/

/-- C8: when (file, pageNo) is resident in frame `fr`, `readPage` makes no
call on the file collaborator (trace and disk unchanged), sets the frame's
reference bit, increments its pin count by exactly one, returns a handle to
the existing frame (frame id `fr`, pool storage untouched), and leaves the
page table, the clock hand and every other frame unchanged. -/
theorem readPage_hit_no_io (fuel : Nat) (s : SysState) (f : FileId)
    (p : PageId) (fr : FrameId)
    (hres : htLookup s.mgr.hashTable f p = some fr)
    (hlen : fr < s.mgr.bufDescTable.length)
    (hwrap : (s.descOf fr).pinCnt + 1 < 2 ^ 32) :
    ∃ s', readPage fuel s f p = some (.ok fr, s') ∧
      s'.trace = s.trace ∧
      s'.disk = s.disk ∧
      s'.mgr.hashTable = s.mgr.hashTable ∧
      s'.mgr.bufPool = s.mgr.bufPool ∧
      s'.mgr.clockHand = s.mgr.clockHand ∧
      (s'.descOf fr).refbit = true ∧
      (s'.descOf fr).pinCnt = (s.descOf fr).pinCnt + 1 ∧
      (s'.descOf fr).valid = (s.descOf fr).valid ∧
      (s'.descOf fr).file = (s.descOf fr).file ∧
      (s'.descOf fr).pageNo = (s.descOf fr).pageNo ∧
      (s'.descOf fr).dirty = (s.descOf fr).dirty ∧
      ∀ j, ¬ j = fr → s'.descOf j = s.descOf j := by
  refine ⟨s.setDesc fr { s.descOf fr with refbit := true, pinCnt := ((s.descOf fr).pinCnt + 1) % 2 ^ 32 }, ?_, rfl, rfl, rfl, rfl, rfl, ?_, ?_, ?_, ?_, ?_, ?_, ?_⟩
  · unfold readPage
    rw [hres]
  · show ((s.mgr.bufDescTable.set fr _).getD fr default).refbit = true
    rw [getD_set_self hlen]
  · show ((s.mgr.bufDescTable.set fr _).getD fr default).pinCnt = _
    rw [getD_set_self hlen]
    exact Nat.mod_eq_of_lt hwrap
  · show ((s.mgr.bufDescTable.set fr _).getD fr default).valid = _
    rw [getD_set_self hlen]
  · show ((s.mgr.bufDescTable.set fr _).getD fr default).file = _
    rw [getD_set_self hlen]
  · show ((s.mgr.bufDescTable.set fr _).getD fr default).pageNo = _
    rw [getD_set_self hlen]
  · show ((s.mgr.bufDescTable.set fr _).getD fr default).dirty = _
    rw [getD_set_self hlen]
  · intro j hj
    show (s.mgr.bufDescTable.set fr _).getD j default = _
    rw [getD_set_ne (fun hc => hj (hc.symm))]
    rfl

/-- Witness for C8: a fetch hit on page (1,2) of `pinnedState`. -/
theorem readPage_hit_no_io_witness :
    htLookup pinnedState.mgr.hashTable 1 2 = some 1 ∧
    (1 : Nat) < pinnedState.mgr.bufDescTable.length ∧
    (pinnedState.descOf 1).pinCnt + 1 < 2 ^ 32 ∧
    ∃ s', readPage 10 pinnedState 1 2 = some (.ok 1, s') ∧
      s'.trace = pinnedState.trace ∧
      s'.disk = pinnedState.disk ∧
      s'.mgr.hashTable = pinnedState.mgr.hashTable ∧
      s'.mgr.bufPool = pinnedState.mgr.bufPool ∧
      s'.mgr.clockHand = pinnedState.mgr.clockHand ∧
      (s'.descOf 1).refbit = true ∧
      (s'.descOf 1).pinCnt = (pinnedState.descOf 1).pinCnt + 1 ∧
      (s'.descOf 1).valid = (pinnedState.descOf 1).valid ∧
      (s'.descOf 1).file = (pinnedState.descOf 1).file ∧
      (s'.descOf 1).pageNo = (pinnedState.descOf 1).pageNo ∧
      (s'.descOf 1).dirty = (pinnedState.descOf 1).dirty ∧
      ∀ j, ¬ j = 1 → s'.descOf j = pinnedState.descOf j :=
  ⟨rfl, by decide, by decide,
    readPage_hit_no_io 10 pinnedState 1 2 1 rfl (by decide) (by decide)⟩

/-! ## C9: disposePage always deletes on the collaborator, no pin check -/

/-- C9: `disposePage` instructs the file collaborator to delete the page
whether or not the page is resident (the trace always gains the
`deletePage` call and the disk drops the page); when resident in frame
`fr` it clears the frame's descriptor and removes the page-table entry (any
other frame untouched); when not resident the manager state is untouched.
No pin-count check occurs anywhere: the conclusions hold with no hypothesis
on `pinCnt`, and the operation total — it cannot fail. -/
theorem disposePage_always_deletes (s : SysState) (f : FileId) (p : PageId) :
    (disposePage s f p).trace = .deletePage f p :: s.trace ∧
    (disposePage s f p).disk = s.disk.deletePage f p ∧
    (htLookup s.mgr.hashTable f p = none → (disposePage s f p).mgr = s.mgr) ∧
    ∀ fr, htLookup s.mgr.hashTable f p = some fr →
      (disposePage s f p).mgr.hashTable = htRemove s.mgr.hashTable f p ∧
      (fr < s.mgr.bufDescTable.length →
        (disposePage s f p).descOf fr = (s.descOf fr).clear) ∧
      (∀ j, ¬ j = fr → (disposePage s f p).descOf j = s.descOf j) ∧
      (disposePage s f p).mgr.clockHand = s.mgr.clockHand ∧
      (disposePage s f p).mgr.bufPool = s.mgr.bufPool ∧
      (disposePage s f p).mgr.numBufs = s.mgr.numBufs := by
  cases hres : htLookup s.mgr.hashTable f p with
  | none =>
    have heq : disposePage s f p = s.fileDelete f p := by
      unfold disposePage
      rw [hres]
    rw [heq]
    exact ⟨rfl, rfl, fun _ => rfl, fun fr hfr => Option.noConfusion hfr⟩
  | some fr0 =>
    have heq : disposePage s f p =
        ((s.setDesc fr0 (s.descOf fr0).clear).setHt
          (htRemove s.mgr.hashTable f p)).fileDelete f p := by
      unfold disposePage
      rw [hres]
      rfl
    rw [heq]
    refine ⟨rfl, rfl, fun hc => Option.noConfusion hc, fun fr hfr => ?_⟩
    have hfr' : fr0 = fr := Option.some.inj hfr
    subst hfr'
    refine ⟨rfl, fun hlen => ?_, fun j hj => ?_, rfl, rfl, rfl⟩
    · show ((s.mgr.bufDescTable.set fr0 _).getD fr0 default) = _
      rw [getD_set_self hlen]
    · show ((s.mgr.bufDescTable.set fr0 _).getD j default) = _
      rw [getD_set_ne (fun hc => hj (hc.symm))]
      rfl

/-- Witness for C9: disposing the currently pinned page (1,1) of
`pinnedState` (pinCnt = 2) proceeds and deletes on the collaborator. -/
theorem disposePage_always_deletes_witness :
    (pinnedState.descOf 0).pinCnt = 2 ∧
    (disposePage pinnedState 1 1).trace =
      .deletePage 1 1 :: pinnedState.trace ∧
    (disposePage pinnedState 1 1).disk = pinnedState.disk.deletePage 1 1 ∧
    (disposePage pinnedState 1 1).mgr.hashTable =
      htRemove pinnedState.mgr.hashTable 1 1 ∧
    (disposePage pinnedState 1 1).descOf 0 = (pinnedState.descOf 0).clear := by
  have h := disposePage_always_deletes pinnedState 1 1
  obtain ⟨h1, h2, -, h4⟩ := h
  obtain ⟨h5, h6, -, -, -, -⟩ := h4 0 rfl
  exact ⟨by decide, h1, h2, h5, h6 (by decide)⟩

/-! ## C7: unpin semantics -/

theorem unPinPage_not_resident {s : SysState} {f : FileId} {p : PageId}
    {d : Bool} (h : htLookup s.mgr.hashTable f p = none) :
    unPinPage s f p d = (.ok (), s) := by
  unfold unPinPage
  rw [h]

theorem unPinPage_zero {s : SysState} {f : FileId} {p : PageId} {d : Bool}
    {fr : FrameId} (h : htLookup s.mgr.hashTable f p = some fr)
    (h0 : (s.descOf fr).pinCnt = 0) :
    unPinPage s f p d = (.error (.pageNotPinned f p fr), s) := by
  unfold unPinPage
  rw [h]
  show (if (s.descOf fr).pinCnt = 0 then _ else _) = _
  rw [if_pos h0]

theorem unPinPage_dec {s : SysState} {f : FileId} {p : PageId} {d : Bool}
    {fr : FrameId} (h : htLookup s.mgr.hashTable f p = some fr)
    (h0 : ¬ (s.descOf fr).pinCnt = 0) :
    unPinPage s f p d = (.ok (), s.setDesc fr { s.descOf fr with pinCnt := (s.descOf fr).pinCnt - 1, dirty := d }) := by
  unfold unPinPage
  rw [h]
  show (if (s.descOf fr).pinCnt = 0 then _ else _) = _
  rw [if_neg h0]

theorem unpinSeq_succ (f : FileId) (p : PageId) (k : Nat) (s : SysState) :
    unpinSeq f p (k + 1) s =
      match unPinPage s f p false with
      | (.ok _, s') => unpinSeq f p k s'
      | r => r := rfl

theorem unpinSeq_drain (f : FileId) (p : PageId) : ∀ (k : Nat) (s : SysState)
    (fr : FrameId), htLookup s.mgr.hashTable f p = some fr →
    fr < s.mgr.bufDescTable.length →
    (s.descOf fr).pinCnt = k →
    (unpinSeq f p k s).1 = .ok () ∧
    ((unpinSeq f p k s).2.descOf fr).pinCnt = 0 ∧
    (unpinSeq f p k s).2.mgr.hashTable = s.mgr.hashTable ∧
    (unpinSeq f p k s).2.mgr.bufDescTable.length =
      s.mgr.bufDescTable.length := by
  intro k
  induction k with
  | zero => exact fun s fr h hlen h0 => ⟨rfl, h0, rfl, rfl⟩
  | succ n ih =>
    intro s fr h hlen hpin
    have h0 : ¬ (s.descOf fr).pinCnt = 0 := by
      rw [hpin]; exact Nat.succ_ne_zero n
    have hdec := unPinPage_dec (d := false) h h0
    have hstep : unpinSeq f p (n + 1) s =
        unpinSeq f p n (s.setDesc fr { s.descOf fr with pinCnt := (s.descOf fr).pinCnt - 1, dirty := false }) := by
      rw [unpinSeq_succ, hdec]
    have hlk : htLookup (s.setDesc fr { s.descOf fr with pinCnt := (s.descOf fr).pinCnt - 1, dirty := false }).mgr.hashTable f p = some fr := h
    have hlen' : fr < (s.setDesc fr { s.descOf fr with pinCnt := (s.descOf fr).pinCnt - 1, dirty := false }).mgr.bufDescTable.length := by
      show fr < (s.mgr.bufDescTable.set fr _).length
      rw [List.length_set]
      exact hlen
    have hpin' : ((s.setDesc fr { s.descOf fr with pinCnt := (s.descOf fr).pinCnt - 1, dirty := false }).descOf fr).pinCnt = n := by
      show ((s.mgr.bufDescTable.set fr _).getD fr default).pinCnt = n
      rw [getD_set_self hlen]
      rw [hpin]
      rfl
    obtain ⟨ha, hb, hc, hd⟩ := ih _ fr hlk hlen' hpin'
    rw [hstep]
    refine ⟨ha, hb, hc.trans rfl, hd.trans ?_⟩
    show (s.mgr.bufDescTable.set fr _).length = _
    rw [List.length_set]

/-- C7: `unpin` on a non-resident page is a silent no-op with the state
unchanged; on a resident page with pin count 0 it fails with `NotPinned`
leaving the state unchanged; otherwise it succeeds and decrements that
frame's pin count by exactly one (touching no other frame, no table entry,
no disk, no trace); consequently, starting from pin count `k`, `k` unpins
succeed and the next one fails with `NotPinned`. -/
theorem unPinPage_spec (s : SysState) (f : FileId) (p : PageId) (d : Bool) :
    (htLookup s.mgr.hashTable f p = none → unPinPage s f p d = (.ok (), s)) ∧
    (∀ fr, htLookup s.mgr.hashTable f p = some fr →
      ((s.descOf fr).pinCnt = 0 →
        unPinPage s f p d = (.error (.pageNotPinned f p fr), s)) ∧
      (¬ (s.descOf fr).pinCnt = 0 → fr < s.mgr.bufDescTable.length →
        (unPinPage s f p d).1 = .ok () ∧
        ((unPinPage s f p d).2.descOf fr).pinCnt = (s.descOf fr).pinCnt - 1 ∧
        (unPinPage s f p d).2.mgr.hashTable = s.mgr.hashTable ∧
        (unPinPage s f p d).2.trace = s.trace ∧
        (unPinPage s f p d).2.disk = s.disk ∧
        ∀ j, ¬ j = fr → (unPinPage s f p d).2.descOf j = s.descOf j) ∧
      (∀ k, (s.descOf fr).pinCnt = k → fr < s.mgr.bufDescTable.length →
        (unpinSeq f p k s).1 = .ok () ∧
        (unPinPage (unpinSeq f p k s).2 f p false).1 =
          .error (.pageNotPinned f p fr))) := by
  refine ⟨fun h => unPinPage_not_resident h, fun fr h => ⟨fun h0 => unPinPage_zero h h0, fun h0 hlen => ?_, fun k hk hlen => ?_⟩⟩
  · rw [unPinPage_dec h h0]
    refine ⟨rfl, ?_, rfl, rfl, rfl, fun j hj => ?_⟩
    · show ((s.mgr.bufDescTable.set fr _).getD fr default).pinCnt = _
      rw [getD_set_self hlen]
    · show (s.mgr.bufDescTable.set fr _).getD j default = _
      rw [getD_set_ne (fun hc => hj (hc.symm))]
      rfl
  · obtain ⟨ha, hb, hc, -⟩ := unpinSeq_drain f p k s fr h hlen hk
    refine ⟨ha, ?_⟩
    have hlk2 : htLookup (unpinSeq f p k s).2.mgr.hashTable f p = some fr := by
      rw [hc]; exact h
    rw [unPinPage_zero hlk2 hb]

/-- Witness for C7 at `pinnedState`: page (1,5) is not resident (no-op);
page (1,1) is resident with pin count 2, so two unpins drain it and the
third fails with `NotPinned`. -/
theorem unPinPage_spec_witness :
    unPinPage pinnedState 1 5 true = (.ok (), pinnedState) ∧
    (unpinSeq 1 1 2 pinnedState).1 = .ok () ∧
    (unPinPage (unpinSeq 1 1 2 pinnedState).2 1 1 false).1 =
      .error (.pageNotPinned 1 1 0) := by
  have h := unPinPage_spec pinnedState 1 5 true
  have h2 := unPinPage_spec pinnedState 1 1 false
  obtain ⟨-, -, h3⟩ := (h2.2 0 rfl)
  obtain ⟨ha, hb⟩ := h3 2 (by decide) (by decide)
  exact ⟨h.1 rfl, ha, hb⟩

/-! ## C5: what eviction does to the victim frame -/

theorem adv_descOf (s : SysState) (i : Nat) : s.adv.descOf i = s.descOf i :=
  rfl

/-- C5: hypotheses describe one iteration of the scan that does not exit
with `PoolExhausted` (`hexit`): an invalid frame under the hand is returned
immediately with no flush, no table removal, and nothing changed but the
hand; a valid, unreferenced, unpinned frame is the victim: its content is
written back through the collaborator and the dirty bit cleared exactly
when dirty was set, its (file, pageNo) entry is removed from the table
(removal of an absent key being a no-op, last conjunct), and its frame id
is returned. -/
theorem allocScan_victim (start : FrameId) (cand : Bool) (fuel : Nat)
    (s : SysState)
    (hexit : ¬ (s.adv.mgr.clockHand = start ∧ cand = false))
    (hlen : s.adv.mgr.clockHand < s.mgr.bufDescTable.length) :
    ((s.descOf s.adv.mgr.clockHand).valid = false →
      allocBufLoop start (fuel + 1) cand s =
        some (.ok s.adv.mgr.clockHand, s.adv) ∧
      s.adv.mgr.hashTable = s.mgr.hashTable ∧
      s.adv.disk = s.disk ∧ s.adv.trace = s.trace ∧
      s.adv.mgr.bufDescTable = s.mgr.bufDescTable) ∧
    ((s.descOf s.adv.mgr.clockHand).valid = true →
     (s.descOf s.adv.mgr.clockHand).refbit = false →
     (s.descOf s.adv.mgr.clockHand).pinCnt = 0 →
      ∃ s', allocBufLoop start (fuel + 1) cand s =
          some (.ok s.adv.mgr.clockHand, s') ∧
        s'.mgr.hashTable = htRemove s.mgr.hashTable
          (s.descOf s.adv.mgr.clockHand).file
          (s.descOf s.adv.mgr.clockHand).pageNo ∧
        s'.mgr.clockHand = s.adv.mgr.clockHand ∧
        ((s.descOf s.adv.mgr.clockHand).dirty = true →
          s'.disk = s.disk.writePage (s.descOf s.adv.mgr.clockHand).file
            (s.poolOf (s.descOf s.adv.mgr.clockHand).frameNo) ∧
          s'.trace = .writePage (s.descOf s.adv.mgr.clockHand).file
            (s.poolOf (s.descOf s.adv.mgr.clockHand).frameNo) :: s.trace ∧
          s'.descOf s.adv.mgr.clockHand =
            { s.descOf s.adv.mgr.clockHand with dirty := false } ∧
          ∀ j, ¬ j = s.adv.mgr.clockHand → s'.descOf j = s.descOf j) ∧
        ((s.descOf s.adv.mgr.clockHand).dirty = false →
          s'.disk = s.disk ∧ s'.trace = s.trace ∧
          s'.mgr.bufDescTable = s.mgr.bufDescTable)) ∧
    (∀ ff pp, htLookup s.mgr.hashTable ff pp = none →
      htRemove s.mgr.hashTable ff pp = s.mgr.hashTable) := by
  refine ⟨fun hv => ?_, fun hv hr hp => ?_, fun ff pp h => htRemove_absent h⟩
  · have hstep : allocBufStep start cand s =
        .inl (.ok s.adv.mgr.clockHand, s.adv) := by
      simp only [allocBufStep, adv_descOf]
      rw [if_neg hexit, if_pos hv]
    rw [allocBufLoop_succ, hstep]
    exact ⟨rfl, rfl, rfl, rfl, rfl⟩
  · by_cases hd : (s.descOf s.adv.mgr.clockHand).dirty = true
    · refine ⟨((s.adv.fileWrite (s.descOf s.adv.mgr.clockHand).file
        (s.adv.poolOf (s.descOf s.adv.mgr.clockHand).frameNo)).setDesc
          s.adv.mgr.clockHand
          { s.descOf s.adv.mgr.clockHand with dirty := false }).setHt
        (htRemove s.mgr.hashTable (s.descOf s.adv.mgr.clockHand).file
          (s.descOf s.adv.mgr.clockHand).pageNo), ?_, rfl, rfl,
        fun _ => ⟨rfl, rfl, ?_, fun j hj => ?_⟩, fun hdd => absurd hd (by simp [hdd])⟩
      · have hstep : allocBufStep start cand s =
            .inl (.ok s.adv.mgr.clockHand,
              ((s.adv.fileWrite (s.descOf s.adv.mgr.clockHand).file
                (s.adv.poolOf (s.descOf s.adv.mgr.clockHand).frameNo)).setDesc
                  s.adv.mgr.clockHand
                  { s.descOf s.adv.mgr.clockHand with dirty := false }).setHt
                (htRemove s.mgr.hashTable
                  (s.descOf s.adv.mgr.clockHand).file
                  (s.descOf s.adv.mgr.clockHand).pageNo)) := by
          simp only [allocBufStep, adv_descOf]
          rw [if_neg hexit, if_neg (by simp [hv]), if_neg (by simp [hr]),
            if_neg (by simp [hp]), if_pos hd]
          rfl
        rw [allocBufLoop_succ, hstep]
      · show ((s.mgr.bufDescTable.set s.adv.mgr.clockHand _).getD
          s.adv.mgr.clockHand default) = _
        rw [getD_set_self hlen]
      · show (s.mgr.bufDescTable.set s.adv.mgr.clockHand _).getD j default = _
        rw [getD_set_ne (fun hc => hj (hc.symm))]
        rfl
    · have hd' : (s.descOf s.adv.mgr.clockHand).dirty = false := by
        cases hdd : (s.descOf s.adv.mgr.clockHand).dirty
        · rfl
        · exact absurd hdd hd
      refine ⟨s.adv.setHt
        (htRemove s.mgr.hashTable (s.descOf s.adv.mgr.clockHand).file
          (s.descOf s.adv.mgr.clockHand).pageNo), ?_, rfl, rfl,
        fun hdd => absurd hdd (by simp [hd']), fun _ => ⟨rfl, rfl, rfl⟩⟩
      have hstep : allocBufStep start cand s =
          .inl (.ok s.adv.mgr.clockHand,
            s.adv.setHt (htRemove s.mgr.hashTable
              (s.descOf s.adv.mgr.clockHand).file
              (s.descOf s.adv.mgr.clockHand).pageNo)) := by
        simp only [allocBufStep, adv_descOf]
        rw [if_neg hexit, if_neg (by simp [hv]), if_neg (by simp [hr]),
          if_neg (by simp [hp]), if_neg (by simp [hd'])]
        rfl
      rw [allocBufLoop_succ, hstep]

/-- Witness for C5 at `victimState`: the scan lands on frame 0 (valid,
refbit clear, unpinned, dirty), writes page (1,1) back, clears dirty,
removes the table entry and returns frame 0. -/
theorem allocScan_victim_witness :
    ¬ (victimState.adv.mgr.clockHand = 1 ∧ false = false) ∧
    ∃ s', allocBufLoop 1 11 false victimState =
        some (.ok victimState.adv.mgr.clockHand, s') ∧
      s'.mgr.hashTable = htRemove victimState.mgr.hashTable 1 1 ∧
      s'.disk = victimState.disk.writePage 1 (victimState.poolOf 0) ∧
      s'.trace = .writePage 1 (victimState.poolOf 0) :: victimState.trace := by
  refine ⟨by decide, ?_⟩
  obtain ⟨-, hvic, -⟩ := allocScan_victim 1 false 10 victimState (by decide)
    (by decide)
  obtain ⟨s', heq, hht, -, hdirty, -⟩ := hvic rfl rfl rfl
  obtain ⟨hdisk, htrace, -, -⟩ := hdirty rfl
  exact ⟨s', heq, hht, hdisk, htrace⟩

/-! ## C4: flushFile -/

theorem flushFileGo_cons (f : FileId) (i : Nat) (rest : List Nat)
    (s : SysState) :
    flushFileGo f (i :: rest) s =
      if (s.descOf i).file = f then
        if ¬ (s.descOf i).pinCnt = 0 then
          (.error (.pagePinned f (s.descOf i).pageNo i), s)
        else if (s.descOf i).valid = false then
          (.error (.badBuffer i (s.descOf i).dirty (s.descOf i).valid
            (s.descOf i).refbit), s)
        else if (s.descOf i).dirty then
          flushFileGo f rest
            ((((s.fileWrite (s.descOf i).file (s.poolOf i)).setDesc i
                { s.descOf i with dirty := false }).setHt
              (htRemove s.mgr.hashTable f (s.descOf i).pageNo)).setDesc i
              (s.descOf i).clear)
        else flushFileGo f rest s
      else flushFileGo f rest s := rfl

theorem mem_range_one {s n m : Nat} :
    m ∈ List.range' s n ↔ s ≤ m ∧ m < s + n := by
  rw [List.mem_range']
  constructor
  · rintro ⟨i, hi, rfl⟩
    omega
  · intro h
    exact ⟨m - s, by omega, by omega⟩

/-- The state one dirty-flush step of `flushFile` produces for frame `i`. -/
theorem flushStep_state (f : FileId) (i : Nat) (s : SysState) :
    ((((s.fileWrite (s.descOf i).file (s.poolOf i)).setDesc i
        { s.descOf i with dirty := false }).setHt
      (htRemove s.mgr.hashTable f (s.descOf i).pageNo)).setDesc i
      (s.descOf i).clear).trace =
        .writePage (s.descOf i).file (s.poolOf i) :: s.trace ∧
    ((((s.fileWrite (s.descOf i).file (s.poolOf i)).setDesc i
        { s.descOf i with dirty := false }).setHt
      (htRemove s.mgr.hashTable f (s.descOf i).pageNo)).setDesc i
      (s.descOf i).clear).mgr.hashTable =
        htRemove s.mgr.hashTable f (s.descOf i).pageNo ∧
    ((((s.fileWrite (s.descOf i).file (s.poolOf i)).setDesc i
        { s.descOf i with dirty := false }).setHt
      (htRemove s.mgr.hashTable f (s.descOf i).pageNo)).setDesc i
      (s.descOf i).clear).mgr.bufPool = s.mgr.bufPool :=
  ⟨rfl, rfl, rfl⟩

theorem flushGo_pinned_abort (f : FileId) (hf : ¬ f = 0) (i0 : Nat) :
    ∀ (l1 l2 : List Nat) (s : SysState), i0 ∉ l1 →
    (∀ j ∈ l1, (s.descOf j).file = f →
      ((s.descOf j).valid = true ∧ (s.descOf j).pinCnt = 0)) →
    (s.descOf i0).file = f → ¬ (s.descOf i0).pinCnt = 0 →
    (flushFileGo f (l1 ++ i0 :: l2) s).1 =
      .error (.pagePinned f (s.descOf i0).pageNo i0) := by
  intro l1
  induction l1 with
  | nil =>
    intro l2 s h1 h2 hm hp
    rw [List.nil_append, flushFileGo_cons, if_pos hm, if_pos hp]
  | cons j l1 ih =>
    intro l2 s h1 h2 hm hp
    have hji0 : ¬ j = i0 := fun hc => h1 (hc ▸ List.mem_cons_self j l1)
    have h1' : i0 ∉ l1 := fun hc => h1 (List.mem_cons_of_mem j hc)
    rw [List.cons_append, flushFileGo_cons]
    by_cases hjm : (s.descOf j).file = f
    · obtain ⟨hjv, hjp⟩ := h2 j (List.mem_cons_self j l1) hjm
      rw [if_pos hjm, if_neg (by simp [hjp]), if_neg (by simp [hjv])]
      by_cases hjd : (s.descOf j).dirty = true
      · rw [if_pos hjd]
        have hdesc : ∀ x, ((((s.fileWrite (s.descOf j).file (s.poolOf j)).setDesc j
            { s.descOf j with dirty := false }).setHt
            (htRemove s.mgr.hashTable f (s.descOf j).pageNo)).setDesc j
            (s.descOf j).clear).descOf x =
              if j = x then
                ((s.mgr.bufDescTable.set j { s.descOf j with dirty := false }).set
                  j (s.descOf j).clear).getD x default
              else s.descOf x := by
          intro x
          by_cases hx : j = x
          · rw [if_pos hx]
            rfl
          · rw [if_neg hx]
            show ((s.mgr.bufDescTable.set j _).set j _).getD x default = _
            rw [getD_set_ne hx, getD_set_ne hx]
            rfl
        have hi0 := (hdesc i0).trans (if_neg hji0)
        rw [← hi0]
        refine ih l2 _ h1' ?_ ?_ ?_
        · intro x hx hxm
          rw [hdesc x] at hxm ⊢
          by_cases hjx : j = x
          · subst hjx
            rw [if_pos rfl] at hxm ⊢
            by_cases hlt : j < s.mgr.bufDescTable.length
            · rw [getD_set_self (by rw [List.length_set]; exact hlt)] at hxm
              have hzero : (0 : FileId) = f := hxm
              exact absurd hzero.symm hf
            · have hset : ∀ (d : BufDesc), s.mgr.bufDescTable.set j d =
                  s.mgr.bufDescTable := by
                intro d
                exact List.set_eq_of_length_le (by omega)
              rw [hset, hset] at hxm ⊢
              exact ⟨hjv, hjp⟩
          · rw [if_neg hjx] at hxm ⊢
            exact h2 x (List.mem_cons_of_mem j hx) hxm
        · rw [hi0]
          exact hm
        · rw [hi0]
          exact hp
      · rw [if_neg hjd]
        exact ih l2 s h1' (fun x hx => h2 x (List.mem_cons_of_mem j hx)) hm hp
    · rw [if_neg hjm]
      exact ih l2 s h1' (fun x hx => h2 x (List.mem_cons_of_mem j hx)) hm hp

theorem flushGo_success (f : FileId) (hf : ¬ f = 0) : ∀ (l : List Nat)
    (s : SysState),
    (∀ j ∈ l, (s.descOf j).file = f →
      ((s.descOf j).valid = true ∧ (s.descOf j).pinCnt = 0)) →
    (∀ j1 j2 : Nat, ¬ j1 = j2 → (s.descOf j1).file = f →
      (s.descOf j2).file = f →
      ¬ (s.descOf j1).pageNo = (s.descOf j2).pageNo) →
    (flushFileGo f l s).1 = .ok () ∧
    (∀ j, j ∉ l → (flushFileGo f l s).2.descOf j = s.descOf j) ∧
    (∀ j, j ∈ l → j < s.mgr.bufDescTable.length → (s.descOf j).file = f →
      (s.descOf j).dirty = true →
      (flushFileGo f l s).2.descOf j = (s.descOf j).clear ∧
      htLookup (flushFileGo f l s).2.mgr.hashTable f (s.descOf j).pageNo
        = none ∧
      IOEvent.writePage f (s.poolOf j) ∈ (flushFileGo f l s).2.trace) ∧
    (∀ j, j ∈ l → (s.descOf j).file = f → (s.descOf j).dirty = false →
      (flushFileGo f l s).2.descOf j = s.descOf j) ∧
    (∀ j, ¬ (s.descOf j).file = f →
      (flushFileGo f l s).2.descOf j = s.descOf j) ∧
    (∀ p, (∀ j, j ∈ l → (s.descOf j).file = f → (s.descOf j).dirty = true →
        ¬ p = (s.descOf j).pageNo) →
      htLookup (flushFileGo f l s).2.mgr.hashTable f p =
        htLookup s.mgr.hashTable f p) ∧
    (flushFileGo f l s).2.mgr.bufPool = s.mgr.bufPool ∧
    (flushFileGo f l s).2.mgr.bufDescTable.length =
      s.mgr.bufDescTable.length ∧
    (∀ e, e ∈ s.trace → e ∈ (flushFileGo f l s).2.trace) := by
  intro l
  induction l with
  | nil =>
    intro s hmatch hdist
    exact ⟨rfl, fun j _ => rfl, fun j hj => absurd hj (List.not_mem_nil j),
      fun j hj => absurd hj (List.not_mem_nil j), fun j _ => rfl,
      fun p _ => rfl, rfl, rfl, fun e he => he⟩
  | cons i l ih =>
    intro s hmatch hdist
    by_cases him : (s.descOf i).file = f
    · obtain ⟨hiv, hip⟩ := hmatch i (List.mem_cons_self i l) him
      by_cases hid : (s.descOf i).dirty = true
      · -- the dirty step
        rw [flushFileGo_cons, if_pos him, if_neg (by simp [hip]),
          if_neg (by simp [hiv]), if_pos hid]
        set s1 : SysState := (((s.fileWrite (s.descOf i).file
          (s.poolOf i)).setDesc i { s.descOf i with dirty := false }).setHt
          (htRemove s.mgr.hashTable f (s.descOf i).pageNo)).setDesc i
          (s.descOf i).clear with hs1
        have hdesc : ∀ x, s1.descOf x =
            if i = x then
              ((s.mgr.bufDescTable.set i { s.descOf i with dirty := false }).set
                i (s.descOf i).clear).getD x default
            else s.descOf x := by
          intro x
          by_cases hx : i = x
          · rw [if_pos hx, hs1]
            subst hx
            rfl
          · rw [if_neg hx, hs1]
            show ((s.mgr.bufDescTable.set i _).set i _).getD x default = _
            rw [getD_set_ne hx, getD_set_ne hx]
            rfl
        have hht : s1.mgr.hashTable =
            htRemove s.mgr.hashTable f (s.descOf i).pageNo := rfl
        have htr : s1.trace =
            .writePage (s.descOf i).file (s.poolOf i) :: s.trace := rfl
        have hpool : s1.mgr.bufPool = s.mgr.bufPool := rfl
        have hlen1 : s1.mgr.bufDescTable.length =
            s.mgr.bufDescTable.length := by
          rw [hs1]
          show ((s.mgr.bufDescTable.set i _).set i _).length = _
          rw [List.length_set, List.length_set]
        have hnotm1 : ∀ x, i = x → ¬ (s1.descOf x).file = f := by
          intro x hx hc
          rw [hdesc x, if_pos hx] at hc
          subst hx
          by_cases hlt : i < s.mgr.bufDescTable.length
          · rw [getD_set_self (by rw [List.length_set]; exact hlt)] at hc
            have hzero : (0 : FileId) = f := hc
            exact hf hzero.symm
          · have hset : ∀ (d : BufDesc), s.mgr.bufDescTable.set i d =
                s.mgr.bufDescTable := fun d =>
              List.set_eq_of_length_le (by omega)
            rw [hset, hset] at hc
            have hmm : (s.descOf i).file = f := hc
            have := hid
            -- out of range: the descriptor is `default`, whose file is 0
            have hdef : s.descOf i = default := by
              show s.mgr.bufDescTable.getD i default = default
              rw [List.getD_eq_getElem?_getD, List.getElem?_eq_none (by omega)]
              rfl
            rw [hdef] at hmm
            have hzero : (0 : FileId) = f := hmm
            exact hf hzero.symm
        have hmatch1 : ∀ j ∈ l, (s1.descOf j).file = f →
            ((s1.descOf j).valid = true ∧ (s1.descOf j).pinCnt = 0) := by
          intro x hx hxm
          by_cases hix : i = x
          · exact absurd hxm (hnotm1 x hix)
          · rw [hdesc x, if_neg hix] at hxm ⊢
            exact hmatch x (List.mem_cons_of_mem i hx) hxm
        have hdist1 : ∀ j1 j2 : Nat, ¬ j1 = j2 → (s1.descOf j1).file = f →
            (s1.descOf j2).file = f →
            ¬ (s1.descOf j1).pageNo = (s1.descOf j2).pageNo := by
          intro j1 j2 hne hm1 hm2
          by_cases hi1 : i = j1
          · exact absurd hm1 (hnotm1 j1 hi1)
          · by_cases hi2 : i = j2
            · exact absurd hm2 (hnotm1 j2 hi2)
            · rw [hdesc j1, if_neg hi1] at hm1 ⊢
              rw [hdesc j2, if_neg hi2] at hm2 ⊢
              exact hdist j1 j2 hne hm1 hm2
        obtain ⟨c1, c2, c3, c4, c5, c6, c7, c8, c9⟩ := ih s1 hmatch1 hdist1
        have hipage : ∀ p, ¬ p = (s.descOf i).pageNo →
            htLookup s1.mgr.hashTable f p = htLookup s.mgr.hashTable f p := by
          intro p hp
          rw [hht]
          exact htLookup_remove_ne (by
            intro hc
            exact hp (congrArg Prod.snd hc))
        refine ⟨c1, ?_, ?_, ?_, ?_, ?_, c7.trans hpool, c8.trans hlen1, ?_⟩
        · -- frames outside i :: l are untouched
          intro j hj
          have hji : ¬ i = j := fun hc => hj (hc ▸ List.mem_cons_self i l)
          have := c2 j (fun hc => hj (List.mem_cons_of_mem i hc))
          rw [this, hdesc j, if_neg hji]
        · -- dirty matching frames are written, cleared, deforested
          intro j hj hjlen hjm hjd
          by_cases hij : i = j
          · subst hij
            refine ⟨?_, ?_, ?_⟩
            · have := c5 i (hnotm1 i rfl)
              rw [this, hdesc i, if_pos rfl,
                getD_set_self (by rw [List.length_set]; exact hjlen)]
            · have hcond : ∀ x, x ∈ l → (s1.descOf x).file = f →
                  (s1.descOf x).dirty = true →
                  ¬ (s.descOf i).pageNo = (s1.descOf x).pageNo := by
                intro x hx hxm hxd
                by_cases hix : i = x
                · exact absurd hxm (hnotm1 x hix)
                · rw [hdesc x, if_neg hix] at hxm ⊢
                  exact hdist i x hix him hxm
              rw [c6 (s.descOf i).pageNo hcond, hht, htLookup_remove_self]
            · refine c9 _ ?_
              rw [htr, him]
              exact List.mem_cons_self _ _
          · have hj' : j ∈ l := by
              cases List.mem_cons.mp hj with
              | inl hc => exact absurd hc.symm hij
              | inr hc => exact hc
            have hdj : s1.descOf j = s.descOf j := by
              rw [hdesc j, if_neg hij]
            obtain ⟨d1, d2, d3⟩ := c3 j hj' (by rw [hlen1]; exact hjlen)
              (by rw [hdj]; exact hjm) (by rw [hdj]; exact hjd)
            refine ⟨?_, ?_, ?_⟩
            · rw [d1, hdj]
            · rw [hdj] at d2
              exact d2
            · have hpj : s1.poolOf j = s.poolOf j := rfl
              rw [← hpj]
              exact d3
        · -- clean matching frames are untouched
          intro j hj hjm hjd
          by_cases hij : i = j
          · subst hij
            rw [hjd] at hid
            exact Bool.noConfusion hid
          · have hj' : j ∈ l := by
              cases List.mem_cons.mp hj with
              | inl hc => exact absurd hc.symm hij
              | inr hc => exact hc
            have hdj : s1.descOf j = s.descOf j := by
              rw [hdesc j, if_neg hij]
            have := c4 j hj' (by rw [hdj]; exact hjm) (by rw [hdj]; exact hjd)
            rw [this, hdj]
        · -- frames of other files are untouched
          intro j hjm
          by_cases hij : i = j
          · subst hij
            exact absurd hjm (fun hc => hc him)
          · have hdj : s1.descOf j = s.descOf j := by
              rw [hdesc j, if_neg hij]
            have := c5 j (by rw [hdj]; exact hjm)
            rw [this, hdj]
        · -- lookups of pages not dirtied are untouched
          intro p hp
          have hpi : ¬ p = (s.descOf i).pageNo :=
            hp i (List.mem_cons_self i l) him hid
          have hcond : ∀ x, x ∈ l → (s1.descOf x).file = f →
              (s1.descOf x).dirty = true → ¬ p = (s1.descOf x).pageNo := by
            intro x hx hxm hxd
            by_cases hix : i = x
            · exact absurd hxm (hnotm1 x hix)
            · rw [hdesc x, if_neg hix] at hxm ⊢
              rw [hdesc x, if_neg hix] at hxd
              exact hp x (List.mem_cons_of_mem i hx) hxm hxd
          rw [c6 p hcond, hipage p hpi]
        · -- the trace only grows
          intro e he
          refine c9 e ?_
          rw [htr]
          exact List.mem_cons_of_mem _ he
      · -- clean matching frame: nothing happens
        have hid' : (s.descOf i).dirty = false := by
          cases hdd : (s.descOf i).dirty
          · rfl
          · exact absurd hdd hid
        rw [flushFileGo_cons, if_pos him, if_neg (by simp [hip]),
          if_neg (by simp [hiv]), if_neg (by simp [hid'])]
        obtain ⟨c1, c2, c3, c4, c5, c6, c7, c8, c9⟩ := ih s
          (fun x hx => hmatch x (List.mem_cons_of_mem i hx)) hdist
        refine ⟨c1, ?_, ?_, ?_, c5, ?_, c7, c8, c9⟩
        · intro j hj
          exact c2 j (fun hc => hj (List.mem_cons_of_mem i hc))
        · intro j hj hjlen hjm hjd
          by_cases hij : i = j
          · subst hij
            exact absurd hjd hid
          · have hj' : j ∈ l := by
              cases List.mem_cons.mp hj with
              | inl hc => exact absurd hc.symm hij
              | inr hc => exact hc
            exact c3 j hj' hjlen hjm hjd
        · intro j hj hjm hjd
          by_cases hij : i = j
          · subst hij
            by_cases hjl : i ∈ l
            · exact c4 i hjl hjm hjd
            · exact c2 i hjl
          · have hj' : j ∈ l := by
              cases List.mem_cons.mp hj with
              | inl hc => exact absurd hc.symm hij
              | inr hc => exact hc
            exact c4 j hj' hjm hjd
        · intro p hp
          exact c6 p (fun x hx => hp x (List.mem_cons_of_mem i hx))
    · -- frame of another file: nothing happens
      rw [flushFileGo_cons, if_neg him]
      obtain ⟨c1, c2, c3, c4, c5, c6, c7, c8, c9⟩ := ih s
        (fun x hx => hmatch x (List.mem_cons_of_mem i hx)) hdist
      refine ⟨c1, ?_, ?_, ?_, c5, ?_, c7, c8, c9⟩
      · intro j hj
        exact c2 j (fun hc => hj (List.mem_cons_of_mem i hc))
      · intro j hj hjlen hjm hjd
        by_cases hij : i = j
        · subst hij
          exact absurd hjm him
        · have hj' : j ∈ l := by
            cases List.mem_cons.mp hj with
            | inl hc => exact absurd hc.symm hij
            | inr hc => exact hc
          exact c3 j hj' hjlen hjm hjd
      · intro j hj hjm hjd
        by_cases hij : i = j
        · subst hij
          exact absurd hjm him
        · have hj' : j ∈ l := by
            cases List.mem_cons.mp hj with
            | inl hc => exact absurd hc.symm hij
            | inr hc => exact hc
          exact c4 j hj' hjm hjd
      · intro p hp
        exact c6 p (fun x hx => hp x (List.mem_cons_of_mem i hx))

theorem htLookup_of_mem {ht : HashTable}
    (hnd : (ht.map Prod.fst).Nodup) {e : (FileId × PageId) × FrameId}
    (he : e ∈ ht) : htLookup ht e.1.1 e.1.2 = some e.2 := by
  induction ht with
  | nil => cases he
  | cons a t ih =>
    rw [htLookup_cons]
    rw [List.map_cons, List.nodup_cons] at hnd
    cases List.mem_cons.mp he with
    | inl hc =>
      subst hc
      rw [if_pos rfl]
    | inr hc =>
      by_cases hk : a.1 = (e.1.1, e.1.2)
      · exfalso
        apply hnd.1
        rw [hk]
        have : e.1 = (e.1.1, e.1.2) := rfl
        rw [← this]
        exact List.mem_map_of_mem Prod.fst hc
      · rw [if_neg hk]
        exact ih hnd.2 hc

theorem descOf_out {s : SysState} {j : Nat}
    (h : s.mgr.bufDescTable.length ≤ j) : s.descOf j = default := by
  show s.mgr.bufDescTable.getD j default = default
  rw [List.getD_eq_getElem?_getD, List.getElem?_eq_none h]
  rfl

/-- C4: under the invariant, for a real file `f`: (abort part) if some frame
holds a page of `f` with nonzero pin count, the flush fails with
`PagePinned` naming the first such frame in scan order; (success part) if no
matching frame is pinned, the flush succeeds, and each valid matching dirty
frame has been written through the collaborator, cleared (descriptor reset,
dirty gone) and its PageTable entry removed, while each matching clean frame
is left resident and completely unchanged (its entry still maps to it), and
frames of other files are untouched. -/
theorem flushFile_spec (s : SysState) (f : FileId) (hf : 0 < f)
    (hinv : Inv s) :
    (∀ i0, i0 < s.mgr.numBufs → (s.descOf i0).file = f →
      ¬ (s.descOf i0).pinCnt = 0 →
      (∀ j, j < i0 → (s.descOf j).file = f → (s.descOf j).pinCnt = 0) →
      (flushFile s f).1 = .error (.pagePinned f (s.descOf i0).pageNo i0)) ∧
    ((∀ j, j < s.mgr.numBufs → (s.descOf j).file = f →
        (s.descOf j).pinCnt = 0) →
      (flushFile s f).1 = .ok () ∧
      (∀ j, j < s.mgr.numBufs → (s.descOf j).file = f →
        (s.descOf j).dirty = true →
        (flushFile s f).2.descOf j = (s.descOf j).clear ∧
        htLookup (flushFile s f).2.mgr.hashTable f (s.descOf j).pageNo
          = none ∧
        IOEvent.writePage f (s.poolOf j) ∈ (flushFile s f).2.trace) ∧
      (∀ j, j < s.mgr.numBufs → (s.descOf j).file = f →
        (s.descOf j).dirty = false →
        (flushFile s f).2.descOf j = s.descOf j ∧
        htLookup (flushFile s f).2.mgr.hashTable f (s.descOf j).pageNo
          = some j) ∧
      (∀ j, ¬ (s.descOf j).file = f →
        (flushFile s f).2.descOf j = s.descOf j)) := by
  have hf0 : ¬ f = 0 := Nat.pos_iff_ne_zero.mp hf
  have hmv : ∀ j, j < s.mgr.numBufs → (s.descOf j).file = f →
      (s.descOf j).valid = true := by
    intro j hj hm
    cases hv : (s.descOf j).valid
    · have := hinv.invalidFile j hj hv
      rw [this] at hm
      exact absurd hm.symm hf0
    · rfl
  have hdist : ∀ j1 j2 : Nat, ¬ j1 = j2 → (s.descOf j1).file = f →
      (s.descOf j2).file = f →
      ¬ (s.descOf j1).pageNo = (s.descOf j2).pageNo := by
    intro j1 j2 hne h1 h2 hpp
    have hb1 : j1 < s.mgr.numBufs := by
      by_contra hc
      have : s.descOf j1 = default := descOf_out (by
        rw [hinv.descLen]; omega)
      rw [this] at h1
      exact hf0 (h1.symm.trans rfl)
    have hb2 : j2 < s.mgr.numBufs := by
      by_contra hc
      have : s.descOf j2 = default := descOf_out (by
        rw [hinv.descLen]; omega)
      rw [this] at h2
      exact hf0 (h2.symm.trans rfl)
    have he1 := hinv.validEnt j1 hb1 (hmv j1 hb1 h1)
    have he2 := hinv.validEnt j2 hb2 (hmv j2 hb2 h2)
    have hkeys : (((s.descOf j1).file, (s.descOf j1).pageNo), j1).1 =
        (((s.descOf j2).file, (s.descOf j2).pageNo), j2).1 := by
      show ((s.descOf j1).file, (s.descOf j1).pageNo) =
        ((s.descOf j2).file, (s.descOf j2).pageNo)
      rw [h1, h2, hpp]
    have := List.inj_on_of_nodup_map hinv.keysND he1 he2 hkeys
    exact hne (congrArg Prod.snd this)
  constructor
  · -- abort at the first pinned matching frame
    intro i0 hi0 hm hp hfirst
    have hsplit : List.range s.mgr.numBufs = List.range' 0 i0 ++
        i0 :: List.range' (i0 + 1) (s.mgr.numBufs - i0 - 1) := by
      rw [List.range_eq_range']
      have h1 := List.range'_append_1 0 i0 (s.mgr.numBufs - i0)
      rw [Nat.zero_add] at h1
      rw [show s.mgr.numBufs - i0 + i0 = s.mgr.numBufs from by omega] at h1
      rw [← h1]
      congr 1
      rw [show s.mgr.numBufs - i0 = (s.mgr.numBufs - i0 - 1) + 1 from by
        omega, List.range'_succ, Nat.add_sub_cancel]
    show (flushFileGo f (List.range s.mgr.numBufs) s).1 = _
    rw [hsplit]
    refine flushGo_pinned_abort f hf0 i0 _ _ s ?_ ?_ hm hp
    · intro hc
      rw [mem_range_one] at hc
      omega
    · intro j hj hjm
      rw [mem_range_one] at hj
      have hjlt : j < i0 := by omega
      exact ⟨hmv j (by omega) hjm, hfirst j hjlt hjm⟩
  · -- clean run
    intro hnopin
    rw [show flushFile s f = flushFileGo f (List.range s.mgr.numBufs) s
      from rfl]
    have hmatch : ∀ j ∈ List.range s.mgr.numBufs, (s.descOf j).file = f →
        ((s.descOf j).valid = true ∧ (s.descOf j).pinCnt = 0) := by
      intro j hj hm
      rw [List.mem_range] at hj
      exact ⟨hmv j hj hm, hnopin j hj hm⟩
    obtain ⟨c1, c2, c3, c4, c5, c6, c7, c8, c9⟩ :=
      flushGo_success f hf0 (List.range s.mgr.numBufs) s hmatch hdist
    refine ⟨c1, ?_, ?_, c5⟩
    · intro j hj hjm hjd
      exact c3 j (List.mem_range.mpr hj) (by rw [hinv.descLen]; exact hj)
        hjm hjd
    · intro j hj hjm hjd
      refine ⟨c4 j (List.mem_range.mpr hj) hjm hjd, ?_⟩
      have hcond : ∀ x, x ∈ List.range s.mgr.numBufs →
          (s.descOf x).file = f → (s.descOf x).dirty = true →
          ¬ (s.descOf j).pageNo = (s.descOf x).pageNo := by
        intro x hx hxm hxd
        by_cases hjx : j = x
        · subst hjx
          rw [hjd] at hxd
          exact Bool.noConfusion hxd
        · exact hdist j x hjx hjm hxm
      rw [c6 (s.descOf j).pageNo hcond]
      have he := hinv.validEnt j hj (hmv j hj hjm)
      have := htLookup_of_mem hinv.keysND he
      rw [hjm] at this
      exact this

theorem inv_pinnedState : Inv pinnedState :=
  ⟨by decide, by decide, by decide, by decide, by decide, by decide,
   by decide, by decide, by decide, by decide, by decide, by decide,
   by decide⟩

/-- Witness for C4: flushing file 1 in `pinnedState` (frame 0 holds page
(1,1) of file 1 with pin count 2) aborts with `PagePinned` at frame 0. -/
theorem flushFile_spec_witness :
    (0 : FileId) < 1 ∧ Inv pinnedState ∧
    (flushFile pinnedState 1).1 = .error (.pagePinned 1 1 0) := by
  refine ⟨by decide, inv_pinnedState, ?_⟩
  exact (flushFile_spec pinnedState 1 (by decide) inv_pinnedState).1 0
    (by decide) rfl (by decide) (fun j hj => absurd hj (by omega))

/-! ## C6: the page table and the valid frames stay in bijection -/

theorem descOf_setDesc (s : SysState) (i j : Nat) (d : BufDesc) :
    (s.setDesc i d).descOf j =
      if i = j ∧ i < s.mgr.bufDescTable.length then d else s.descOf j := by
  by_cases hij : i = j
  · subst hij
    by_cases hlt : i < s.mgr.bufDescTable.length
    · rw [if_pos ⟨rfl, hlt⟩]
      show (s.mgr.bufDescTable.set i d).getD i default = d
      exact getD_set_self hlt
    · rw [if_neg (fun hc => hlt hc.2)]
      show (s.mgr.bufDescTable.set i d).getD i default = _
      rw [List.set_eq_of_length_le (by omega)]
      rfl
  · rw [if_neg (fun hc => hij hc.1)]
    show (s.mgr.bufDescTable.set i d).getD j default = _
    rw [getD_set_ne hij]
    rfl

theorem Inv_adv {s : SysState} (h : Inv s) : Inv s.adv :=
  ⟨h.numPos, h.descLen, h.poolLen, h.entBound, h.entValid, h.entFile,
   h.entPage, h.keysND, h.framesND, h.validEnt, h.invalidFile, h.htFresh,
   h.diskFresh⟩

theorem advanceClock_lt (m : BufMgr) (h : 0 < m.numBufs) :
    m.advanceClock.clockHand < m.numBufs := by
  unfold BufMgr.advanceClock
  dsimp only
  split_ifs with hc
  · exact h
  · omega

/-- Updating a descriptor without touching its valid/file/pageNo fields
preserves the invariant. -/
theorem Inv_setDesc_same {s : SysState} (hinv : Inv s) {i : Nat}
    {d : BufDesc} (hv : d.valid = (s.descOf i).valid)
    (hfl : d.file = (s.descOf i).file)
    (hpg : d.pageNo = (s.descOf i).pageNo) : Inv (s.setDesc i d) := by
  have hdo := descOf_setDesc s i
  refine ⟨hinv.numPos, ?_, hinv.poolLen, hinv.entBound, ?_, ?_, ?_,
    hinv.keysND, hinv.framesND, ?_, ?_, hinv.htFresh, hinv.diskFresh⟩
  · show (s.mgr.bufDescTable.set i d).length = _
    rw [List.length_set]
    exact hinv.descLen
  · intro e he
    rw [hdo e.2]
    split_ifs with hc
    · rw [hv, hc.1]
      exact hinv.entValid e he
    · exact hinv.entValid e he
  · intro e he
    rw [hdo e.2]
    split_ifs with hc
    · rw [hfl, hc.1]
      exact hinv.entFile e he
    · exact hinv.entFile e he
  · intro e he
    rw [hdo e.2]
    split_ifs with hc
    · rw [hpg, hc.1]
      exact hinv.entPage e he
    · exact hinv.entPage e he
  · intro j hj hval
    have hlen : (s.setDesc i d).mgr.bufDescTable.length =
        s.mgr.bufDescTable.length := by
      show (s.mgr.bufDescTable.set i d).length = _
      rw [List.length_set]
    rw [hdo j] at hval ⊢
    split_ifs at hval ⊢ with hc
    · rw [hv, hc.1] at hval
      rw [hfl, hpg, hc.1]
      exact hinv.validEnt j (by rw [← hc.1]; rw [hc.1]; exact hj) hval
    · exact hinv.validEnt j hj hval
  · intro j hj hval
    rw [hdo j] at hval ⊢
    split_ifs at hval ⊢ with hc
    · rw [hv, hc.1] at hval
      rw [hfl, hc.1]
      exact hinv.invalidFile j hj hval
    · exact hinv.invalidFile j hj hval

theorem writePage_next (dk : Disk) (f : FileId) (pg : Page) (g : FileId) :
    (dk.writePage f pg).next g = dk.next g := rfl

theorem writePage_keys (dk : Disk) (f : FileId) (pg : Page) :
    (dk.writePage f pg).pages.map Prod.fst = dk.pages.map Prod.fst := by
  show (dk.pages.map _).map Prod.fst = _
  rw [List.map_map]
  refine List.map_congr_left ?_
  intro e he
  by_cases hc : e.1 = (f, pg.page_number)
  · show Prod.fst (if e.1 = (f, pg.page_number) then _ else e) = e.1
    rw [if_pos hc, hc]
  · show Prod.fst (if e.1 = (f, pg.page_number) then _ else e) = e.1
    rw [if_neg hc]

theorem writePage_fresh {dk : Disk} {f : FileId} {pg : Page}
    (h : ∀ e ∈ dk.pages, e.1.2 < dk.next e.1.1) :
    ∀ e ∈ (dk.writePage f pg).pages,
      e.1.2 < (dk.writePage f pg).next e.1.1 := by
  intro e he
  rw [writePage_next]
  obtain ⟨a, ha, hae⟩ := List.mem_map.mp he
  by_cases hc : a.1 = (f, pg.page_number)
  · rw [if_pos hc] at hae
    rw [← hae]
    show pg.page_number < dk.next f
    have := h a ha
    rw [hc] at this
    exact this
  · rw [if_neg hc] at hae
    rw [← hae]
    exact h a ha

theorem htLookup_none_iff {ht : HashTable} {f : FileId} {p : PageId} :
    htLookup ht f p = none ↔ ∀ e ∈ ht, ¬ e.1 = (f, p) := by
  rw [htLookup, Option.map_eq_none', List.find?_eq_none]
  constructor
  · intro h e he hc
    exact absurd (by simpa using hc) (h e he)
  · intro h e he
    simpa using h e he

theorem find?_filter_ne {α : Type} {l : List (FileId × α)} {f g : FileId}
    (h : ¬ g = f) :
    (l.filter (fun e => ¬ e.1 = f)).find? (fun e => e.1 = g) =
      l.find? (fun e => e.1 = g) := by
  induction l with
  | nil => rfl
  | cons a t ih =>
    rw [List.filter_cons]
    by_cases ha : a.1 = f
    · have hag : ¬ a.1 = g := by rw [ha]; exact fun hc => h hc.symm
      rw [if_neg (by simpa using ha), List.find?_cons_of_neg _ (by simpa using hag)]
      exact ih
    · rw [if_pos (by simpa using ha)]
      by_cases hag : a.1 = g
      · rw [List.find?_cons_of_pos _ (by simpa using hag),
          List.find?_cons_of_pos _ (by simpa using hag)]
      · rw [List.find?_cons_of_neg _ (by simpa using hag),
          List.find?_cons_of_neg _ (by simpa using hag)]
        exact ih

theorem allocatePage_next (dk : Disk) (f g : FileId) :
    (dk.allocatePage f).2.next g =
      if g = f then dk.next f + 1 else dk.next g := by
  by_cases hg : g = f
  · subst hg
    rw [if_pos rfl]
    show ((((g, dk.next g + 1) :: dk.nextPageNo.filter
      (fun e => ¬ e.1 = g)).find? (fun e => e.1 = g)).map (·.2)).getD 1 = _
    rw [List.find?_cons_of_pos _ (by simp)]
    rfl
  · rw [if_neg hg]
    show ((((f, dk.next f + 1) :: dk.nextPageNo.filter
      (fun e => ¬ e.1 = f)).find? (fun e => e.1 = g)).map (·.2)).getD 1 = _
    rw [List.find?_cons_of_neg _ (by simpa using fun hc => hg hc.symm),
      find?_filter_ne hg]
    rfl

theorem mem_htRemove {ht : HashTable} {f : FileId} {p : PageId}
    {e : (FileId × PageId) × FrameId} :
    e ∈ htRemove ht f p ↔ e ∈ ht ∧ ¬ e.1 = (f, p) := by
  rw [htRemove, List.mem_filter]
  simp

theorem htRemove_keysND {ht : HashTable} {f : FileId} {p : PageId}
    (h : (ht.map Prod.fst).Nodup) :
    ((htRemove ht f p).map Prod.fst).Nodup :=
  ((List.filter_sublist ht).map Prod.fst).nodup h

theorem htRemove_framesND {ht : HashTable} {f : FileId} {p : PageId}
    (h : (ht.map Prod.snd).Nodup) :
    ((htRemove ht f p).map Prod.snd).Nodup :=
  ((List.filter_sublist ht).map Prod.snd).nodup h

/-- Removing the page-table entry of a valid frame and clearing that frame's
descriptor together preserve the invariant (the `flushFile` dirty branch and
`disposePage`'s resident branch). -/
theorem Inv_clear_remove {u : SysState} (hinv : Inv u) {i : Nat}
    (hib : i < u.mgr.numBufs) (hval : (u.descOf i).valid = true) :
    Inv ((u.setHt (htRemove u.mgr.hashTable (u.descOf i).file
      (u.descOf i).pageNo)).setDesc i (u.descOf i).clear) := by
  have hilen : i < u.mgr.bufDescTable.length := by
    rw [hinv.descLen]; exact hib
  have hdo : ∀ j, ((u.setHt (htRemove u.mgr.hashTable (u.descOf i).file
      (u.descOf i).pageNo)).setDesc i (u.descOf i).clear).descOf j =
      if i = j then (u.descOf i).clear else u.descOf j := by
    intro j
    by_cases hij : i = j
    · subst hij
      rw [if_pos rfl]
      show (u.mgr.bufDescTable.set i _).getD i default = _
      exact getD_set_self hilen
    · rw [if_neg hij]
      show (u.mgr.bufDescTable.set i _).getD j default = _
      rw [getD_set_ne hij]
      rfl
  have hkey : ∀ e ∈ u.mgr.hashTable, e.2 = i →
      e.1 = ((u.descOf i).file, (u.descOf i).pageNo) := by
    intro e he hei
    have h1 := hinv.entFile e he
    have h2 := hinv.entPage e he
    rw [hei] at h1 h2
    rw [h1, h2]
  refine ⟨hinv.numPos, ?_, hinv.poolLen, ?_, ?_, ?_, ?_,
    htRemove_keysND hinv.keysND, htRemove_framesND hinv.framesND,
    ?_, ?_, ?_, hinv.diskFresh⟩
  · show (u.mgr.bufDescTable.set i _).length = _
    rw [List.length_set]
    exact hinv.descLen
  · intro e he
    exact hinv.entBound e (mem_htRemove.mp he).1
  · intro e he
    obtain ⟨hm, hk⟩ := mem_htRemove.mp he
    have hei : ¬ e.2 = i := fun hc => hk (hkey e hm hc)
    rw [hdo e.2, if_neg (fun hc => hei hc.symm)]
    exact hinv.entValid e hm
  · intro e he
    obtain ⟨hm, hk⟩ := mem_htRemove.mp he
    have hei : ¬ e.2 = i := fun hc => hk (hkey e hm hc)
    rw [hdo e.2, if_neg (fun hc => hei hc.symm)]
    exact hinv.entFile e hm
  · intro e he
    obtain ⟨hm, hk⟩ := mem_htRemove.mp he
    have hei : ¬ e.2 = i := fun hc => hk (hkey e hm hc)
    rw [hdo e.2, if_neg (fun hc => hei hc.symm)]
    exact hinv.entPage e hm
  · intro j hj hjv
    rw [hdo j] at hjv ⊢
    split_ifs at hjv ⊢ with hc
    · exact Bool.noConfusion hjv
    · have he := hinv.validEnt j hj hjv
      refine mem_htRemove.mpr ⟨he, ?_⟩
      intro hk
      have he' := hinv.validEnt i hib hval
      have := List.inj_on_of_nodup_map hinv.keysND he he' hk
      exact hc (congrArg Prod.snd this).symm
  · intro j hj hjv
    rw [hdo j] at hjv ⊢
    split_ifs at hjv ⊢ with hc
    · rfl
    · exact hinv.invalidFile j hj hjv
  · intro e he
    exact hinv.htFresh e (mem_htRemove.mp he).1

theorem Inv_fileDelete {s : SysState} (hinv : Inv s) (f : FileId)
    (p : PageId) : Inv (s.fileDelete f p) := by
  refine ⟨hinv.numPos, hinv.descLen, hinv.poolLen, hinv.entBound,
    hinv.entValid, hinv.entFile, hinv.entPage, hinv.keysND, hinv.framesND,
    hinv.validEnt, hinv.invalidFile, hinv.htFresh, ?_⟩
  intro e he
  have hm : e ∈ s.disk.pages := (List.filter_sublist _).subset he
  exact hinv.diskFresh e hm

/-- Evicting a valid frame (removing its page-table entry, leaving the
descriptor valid) yields the invariant-with-a-free-frame. -/
theorem InvFree_evict {u : SysState} (hinv : Inv u) {i : Nat}
    (hib : i < u.mgr.numBufs) (hval : (u.descOf i).valid = true) :
    InvFree (u.setHt (htRemove u.mgr.hashTable (u.descOf i).file
      (u.descOf i).pageNo)) i := by
  have hkey : ∀ e ∈ u.mgr.hashTable, e.2 = i →
      e.1 = ((u.descOf i).file, (u.descOf i).pageNo) := by
    intro e he hei
    have h1 := hinv.entFile e he
    have h2 := hinv.entPage e he
    rw [hei] at h1 h2
    rw [h1, h2]
  refine ⟨hinv.numPos, hinv.descLen, hinv.poolLen, hib, ?_, ?_, ?_, ?_, ?_,
    htRemove_keysND hinv.keysND, htRemove_framesND hinv.framesND,
    ?_, ?_, ?_, hinv.diskFresh⟩
  · intro e he
    obtain ⟨hm, hk⟩ := mem_htRemove.mp he
    exact fun hc => hk (hkey e hm hc)
  · intro e he
    exact hinv.entBound e (mem_htRemove.mp he).1
  · intro e he
    exact hinv.entValid e (mem_htRemove.mp he).1
  · intro e he
    exact hinv.entFile e (mem_htRemove.mp he).1
  · intro e he
    exact hinv.entPage e (mem_htRemove.mp he).1
  · intro j hj hjne hjv
    have he := hinv.validEnt j hj hjv
    refine mem_htRemove.mpr ⟨he, ?_⟩
    intro hk
    have he' := hinv.validEnt i hib hval
    have := List.inj_on_of_nodup_map hinv.keysND he he' hk
    exact hjne (congrArg Prod.snd this)
  · intro j hj hjne hjv
    exact hinv.invalidFile j hj hjv
  · intro e he
    exact hinv.htFresh e (mem_htRemove.mp he).1

theorem Inv_fileWrite {s : SysState} (hinv : Inv s) (f : FileId)
    (pg : Page) : Inv (s.fileWrite f pg) := by
  refine ⟨hinv.numPos, hinv.descLen, hinv.poolLen, hinv.entBound,
    hinv.entValid, hinv.entFile, hinv.entPage, hinv.keysND, hinv.framesND,
    hinv.validEnt, hinv.invalidFile, ?_, ?_⟩
  · intro e he
    exact hinv.htFresh e he
  · exact writePage_fresh hinv.diskFresh

/-- One non-exiting scan iteration preserves the invariant and touches
neither the page table nor the disk. -/
theorem allocBufStep_contin_inv {start : FrameId} {cand : Bool}
    {s : SysState} {c : Bool × SysState} (hinv : Inv s)
    (h : allocBufStep start cand s = .inr c) :
    Inv c.2 ∧ c.2.mgr.hashTable = s.mgr.hashTable ∧ c.2.disk = s.disk ∧
      c.2.mgr.numBufs = s.mgr.numBufs := by
  simp only [allocBufStep] at h
  split_ifs at h with h1 h2 h3 h4
  · have hinj := Sum.inr.inj h
    rw [← hinj]
    refine ⟨?_, rfl, rfl, rfl⟩
    exact Inv_setDesc_same (Inv_adv hinv) rfl rfl rfl
  · have hinj := Sum.inr.inj h
    rw [← hinj]
    exact ⟨Inv_adv hinv, rfl, rfl, rfl⟩

/-- A scan iteration that returns a frame establishes the
invariant-with-a-free-frame, shrinks the page table, and leaves the disk's
numbering and page keys unchanged. -/
theorem allocBufStep_ok {start : FrameId} {cand : Bool} {s s' : SysState}
    {fr : FrameId} (hinv : Inv s)
    (h : allocBufStep start cand s = .inl (.ok fr, s')) :
    InvFree s' fr ∧ (∀ e ∈ s'.mgr.hashTable, e ∈ s.mgr.hashTable) ∧
    (∀ g, s'.disk.next g = s.disk.next g) ∧
    s'.disk.pages.map Prod.fst = s.disk.pages.map Prod.fst ∧
    s'.mgr.numBufs = s.mgr.numBufs := by
  have hadv : Inv s.adv := Inv_adv hinv
  have hhand : s.adv.mgr.clockHand < s.adv.mgr.numBufs :=
    advanceClock_lt s.mgr hinv.numPos
  simp only [allocBufStep] at h
  split_ifs at h with h1 h2 h3 h4 h5
  · exact Except.noConfusion (congrArg Prod.fst (Sum.inl.inj h))
  · -- invalid frame: returned immediately
    have hinj := Sum.inl.inj h
    have hfr : s.adv.mgr.clockHand = fr :=
      Except.ok.inj (congrArg Prod.fst hinj)
    have hs : s.adv = s' := congrArg Prod.snd hinj
    subst hfr
    rw [← hs]
    refine ⟨⟨hadv.numPos, hadv.descLen, hadv.poolLen, hhand, ?_,
      hadv.entBound, hadv.entValid, hadv.entFile, hadv.entPage,
      hadv.keysND, hadv.framesND, ?_, ?_, hadv.htFresh, hadv.diskFresh⟩,
      fun e he => he, fun g => rfl, rfl, rfl⟩
    · intro e he hc
      have := hadv.entValid e he
      rw [hc, h2] at this
      exact Bool.noConfusion this
    · intro j hj hjne hjv
      exact hadv.validEnt j hj hjv
    · intro j hj hjne hjv
      exact hadv.invalidFile j hj hjv
  · -- dirty victim: write back, clear dirty, drop the table entry
    have hval : (s.adv.descOf s.adv.mgr.clockHand).valid = true := by
      cases hc : (s.adv.descOf s.adv.mgr.clockHand).valid
      · exact absurd hc h2
      · rfl
    · have hinj := Sum.inl.inj h
      have hmid : Inv ((s.adv.fileWrite (s.adv.descOf s.adv.mgr.clockHand).file
          (s.adv.poolOf (s.adv.descOf s.adv.mgr.clockHand).frameNo)).setDesc
          s.adv.mgr.clockHand
          { s.adv.descOf s.adv.mgr.clockHand with dirty := false }) := by
        refine Inv_setDesc_same (Inv_fileWrite hadv _ _) rfl rfl rfl
      have hmb : s.adv.mgr.clockHand <
          ((s.adv.fileWrite (s.adv.descOf s.adv.mgr.clockHand).file
          (s.adv.poolOf (s.adv.descOf s.adv.mgr.clockHand).frameNo)).setDesc
          s.adv.mgr.clockHand
          { s.adv.descOf s.adv.mgr.clockHand with dirty := false }).mgr.numBufs :=
        hhand
      have hmv : (((s.adv.fileWrite (s.adv.descOf s.adv.mgr.clockHand).file
          (s.adv.poolOf (s.adv.descOf s.adv.mgr.clockHand).frameNo)).setDesc
          s.adv.mgr.clockHand
          { s.adv.descOf s.adv.mgr.clockHand with dirty := false }).descOf
          s.adv.mgr.clockHand).valid = true := by
        show ((s.adv.mgr.bufDescTable.set s.adv.mgr.clockHand _).getD
          s.adv.mgr.clockHand default).valid = true
        rw [getD_set_self (by rw [hadv.descLen]; exact hhand)]
        exact hval
      have hfree := InvFree_evict hmid hmb hmv
      have hfr : s.adv.mgr.clockHand = fr :=
        Except.ok.inj (congrArg Prod.fst hinj)
      have hfile : (((s.adv.fileWrite (s.adv.descOf s.adv.mgr.clockHand).file
          (s.adv.poolOf (s.adv.descOf s.adv.mgr.clockHand).frameNo)).setDesc
          s.adv.mgr.clockHand
          { s.adv.descOf s.adv.mgr.clockHand with dirty := false }).descOf
          s.adv.mgr.clockHand).file =
          (s.adv.descOf s.adv.mgr.clockHand).file := by
        show ((s.adv.mgr.bufDescTable.set s.adv.mgr.clockHand _).getD
          s.adv.mgr.clockHand default).file = _
        rw [getD_set_self (by rw [hadv.descLen]; exact hhand)]
      have hpage : (((s.adv.fileWrite (s.adv.descOf s.adv.mgr.clockHand).file
          (s.adv.poolOf (s.adv.descOf s.adv.mgr.clockHand).frameNo)).setDesc
          s.adv.mgr.clockHand
          { s.adv.descOf s.adv.mgr.clockHand with dirty := false }).descOf
          s.adv.mgr.clockHand).pageNo =
          (s.adv.descOf s.adv.mgr.clockHand).pageNo := by
        show ((s.adv.mgr.bufDescTable.set s.adv.mgr.clockHand _).getD
          s.adv.mgr.clockHand default).pageNo = _
        rw [getD_set_self (by rw [hadv.descLen]; exact hhand)]
      rw [hfile, hpage] at hfree
      have hs : s' = (((s.adv.fileWrite
          (s.adv.descOf s.adv.mgr.clockHand).file
          (s.adv.poolOf (s.adv.descOf s.adv.mgr.clockHand).frameNo)).setDesc
          s.adv.mgr.clockHand
          { s.adv.descOf s.adv.mgr.clockHand with dirty := false }).setHt
          (htRemove s.mgr.hashTable (s.adv.descOf s.adv.mgr.clockHand).file
            (s.adv.descOf s.adv.mgr.clockHand).pageNo)) :=
        (congrArg Prod.snd hinj).symm
      subst hs
      rw [← hfr]
      refine ⟨hfree, ?_, fun g => rfl, writePage_keys _ _ _, rfl⟩
      · intro e he
        exact (mem_htRemove.mp he).1
  · -- clean victim: just drop the table entry
    have hval : (s.adv.descOf s.adv.mgr.clockHand).valid = true := by
      cases hc : (s.adv.descOf s.adv.mgr.clockHand).valid
      · exact absurd hc h2
      · rfl
    · have hinj := Sum.inl.inj h
      have hfr : s.adv.mgr.clockHand = fr :=
        Except.ok.inj (congrArg Prod.fst hinj)
      have hfree := InvFree_evict hadv hhand hval
      have hs : s' = s.adv.setHt (htRemove s.mgr.hashTable
          (s.adv.descOf s.adv.mgr.clockHand).file
          (s.adv.descOf s.adv.mgr.clockHand).pageNo) :=
        (congrArg Prod.snd hinj).symm
      subst hs
      rw [← hfr]
      refine ⟨hfree, ?_, fun g => rfl, rfl, rfl⟩
      intro e he
      exact (mem_htRemove.mp he).1

/-- The whole scan, when it returns a frame, establishes the
invariant-with-a-free-frame. -/
theorem allocBufLoop_ok {start : FrameId} : ∀ (fuel : Nat) (cand : Bool)
    (s s' : SysState) (fr : FrameId), Inv s →
    allocBufLoop start fuel cand s = some (.ok fr, s') →
    InvFree s' fr ∧ (∀ e ∈ s'.mgr.hashTable, e ∈ s.mgr.hashTable) ∧
    (∀ g, s'.disk.next g = s.disk.next g) ∧
    s'.disk.pages.map Prod.fst = s.disk.pages.map Prod.fst ∧
    s'.mgr.numBufs = s.mgr.numBufs := by
  intro fuel
  induction fuel with
  | zero => intro cand s s' fr hinv h; exact Option.noConfusion h
  | succ n ih =>
    intro cand s s' fr hinv h
    rw [allocBufLoop_succ] at h
    cases hstep : allocBufStep start cand s with
    | inl r0 =>
      rw [hstep] at h
      have h' : some r0 = some (.ok fr, s') := h
      rw [Option.some.injEq] at h'
      rw [h'] at hstep
      exact allocBufStep_ok hinv hstep
    | inr c =>
      rw [hstep] at h
      have h' : allocBufLoop start n c.1 c.2 = some (.ok fr, s') := h
      obtain ⟨hcinv, hht, hdisk, hnum⟩ := allocBufStep_contin_inv hinv hstep
      obtain ⟨f1, f2, f3, f4, f5⟩ := ih c.1 c.2 s' fr hcinv h'
      refine ⟨f1, ?_, ?_, ?_, ?_⟩
      · intro e he
        have := f2 e he
        rw [hht] at this
        exact this
      · intro g
        rw [f3 g, hdisk]
      · rw [f4, hdisk]
      · rw [f5, hnum]

theorem countP_le_one_of_nodup_map {α β : Type} [BEq β] [LawfulBEq β]
    {l : List α} {f : α → β} (h : (l.map f).Nodup) (b : β) :
    l.countP (fun a => f a == b) ≤ 1 := by
  induction l with
  | nil => simp [List.countP_nil]
  | cons a t ih =>
    rw [List.countP_cons]
    rw [List.map_cons, List.nodup_cons] at h
    by_cases hab : f a = b
    · have h0 : t.countP (fun x => f x == b) = 0 := by
        rw [List.countP_eq_zero]
        intro x hx hc
        apply h.1
        have hfx : f x = b := by simpa using hc
        rw [hab, ← hfx]
        exact List.mem_map_of_mem f hx
      rw [h0]
      simp [hab]
    · have hab' : (f a == b) = false := by simpa using hab
      rw [hab']
      simpa using ih h.2

/-- The invariant implies the bijection of C6. -/
theorem Inv_Bij {s : SysState} (hinv : Inv s) : Bij s.mgr := by
  refine ⟨?_, ?_, ?_⟩
  · intro i hi hval
    have he := hinv.validEnt i hi hval
    have hpos : 0 < s.mgr.hashTable.count
        ((((s.mgr.bufDescTable.getD i default).file,
           (s.mgr.bufDescTable.getD i default).pageNo), i)) :=
      List.count_pos_iff.mpr he
    have hle : s.mgr.hashTable.count
        ((((s.mgr.bufDescTable.getD i default).file,
           (s.mgr.bufDescTable.getD i default).pageNo), i)) ≤ 1 := by
      rw [List.count_eq_countP]
      refine le_trans (List.countP_mono_left ?_)
        (countP_le_one_of_nodup_map hinv.keysND
          ((s.mgr.bufDescTable.getD i default).file,
           (s.mgr.bufDescTable.getD i default).pageNo))
      intro x hx hxe
      have hx2 : x = ((((s.mgr.bufDescTable.getD i default).file,
          (s.mgr.bufDescTable.getD i default).pageNo), i)) := by
        simpa using hxe
      rw [hx2]
      simp
    omega
  · intro i
    exact countP_le_one_of_nodup_map hinv.framesND i
  · have hperm : (s.mgr.hashTable.map Prod.snd).Perm
        ((List.range s.mgr.numBufs).filter
          (fun i => (s.mgr.bufDescTable.getD i default).valid)) := by
      rw [List.perm_ext_iff_of_nodup hinv.framesND
        ((List.nodup_range _).filter _)]
      intro a
      constructor
      · intro ha
        obtain ⟨e, he, hea⟩ := List.mem_map.mp ha
        subst hea
        rw [List.mem_filter, List.mem_range]
        exact ⟨hinv.entBound e he, hinv.entValid e he⟩
      · intro ha
        rw [List.mem_filter, List.mem_range] at ha
        have ha2 : (s.descOf a).valid = true := ha.2
        have := hinv.validEnt a ha.1 ha2
        exact List.mem_map.mpr ⟨_, this, rfl⟩
    have hlen2 := hperm.length_eq
    rw [List.length_map] at hlen2
    show s.mgr.hashTable.length = (List.range s.mgr.numBufs).countP _
    rw [List.countP_eq_length_filter]
    exact hlen2

/-- Installing a fresh page into the free frame (page-table insert followed
by `Set()`) restores the full invariant. -/
theorem Inv_install {s : SysState} {fr : FrameId} (hfree : InvFree s fr)
    {f : FileId} {p : PageId}
    (hkey : ∀ e ∈ s.mgr.hashTable, ¬ e.1 = (f, p))
    (hfresh : p < s.disk.next f) :
    Inv ((s.setHt (htInsert s.mgr.hashTable f p fr)).setDesc fr
      (((s.setHt (htInsert s.mgr.hashTable f p fr)).descOf fr).Set f p)) := by
  have hfl : fr < s.mgr.bufDescTable.length := by
    rw [hfree.descLen]; exact hfree.frBound
  have hdo : ∀ j, ((s.setHt (htInsert s.mgr.hashTable f p fr)).setDesc fr
      (((s.setHt (htInsert s.mgr.hashTable f p fr)).descOf fr).Set f p)).descOf
      j = if fr = j then (s.descOf fr).Set f p else s.descOf j := by
    intro j
    by_cases hj : fr = j
    · subst hj
      rw [if_pos rfl]
      show (s.mgr.bufDescTable.set fr _).getD fr default = _
      exact getD_set_self hfl
    · rw [if_neg hj]
      show (s.mgr.bufDescTable.set fr _).getD j default = _
      rw [getD_set_ne hj]
      rfl
  refine ⟨hfree.numPos, ?_, hfree.poolLen, ?_, ?_, ?_, ?_, ?_, ?_, ?_, ?_,
    ?_, hfree.diskFresh⟩
  · show (s.mgr.bufDescTable.set fr _).length = _
    rw [List.length_set]
    exact hfree.descLen
  · intro e he
    cases List.mem_cons.mp he with
    | inl hc => rw [hc]; exact hfree.frBound
    | inr hc => exact hfree.entBound e hc
  · intro e he
    cases List.mem_cons.mp he with
    | inl hc =>
      rw [hc, hdo fr, if_pos rfl]
      rfl
    | inr hc =>
      rw [hdo e.2, if_neg (fun h => hfree.frFree e hc h.symm)]
      exact hfree.entValid e hc
  · intro e he
    cases List.mem_cons.mp he with
    | inl hc =>
      rw [hc, hdo fr, if_pos rfl]
      rfl
    | inr hc =>
      rw [hdo e.2, if_neg (fun h => hfree.frFree e hc h.symm)]
      exact hfree.entFile e hc
  · intro e he
    cases List.mem_cons.mp he with
    | inl hc =>
      rw [hc, hdo fr, if_pos rfl]
      rfl
    | inr hc =>
      rw [hdo e.2, if_neg (fun h => hfree.frFree e hc h.symm)]
      exact hfree.entPage e hc
  · show (((((f, p), fr) : (FileId × PageId) × FrameId) ::
      s.mgr.hashTable).map Prod.fst).Nodup
    rw [List.map_cons, List.nodup_cons]
    exact ⟨fun hc => by
      obtain ⟨e, he, hee⟩ := List.mem_map.mp hc
      exact hkey e he hee, hfree.keysND⟩
  · show (((((f, p), fr) : (FileId × PageId) × FrameId) ::
      s.mgr.hashTable).map Prod.snd).Nodup
    rw [List.map_cons, List.nodup_cons]
    exact ⟨fun hc => by
      obtain ⟨e, he, hee⟩ := List.mem_map.mp hc
      exact hfree.frFree e he hee, hfree.framesND⟩
  · intro j hj hjv
    rw [hdo j] at hjv ⊢
    split_ifs at hjv ⊢ with hc
    · subst hc
      show ((((s.descOf fr).Set f p).file,
        ((s.descOf fr).Set f p).pageNo), fr) ∈
        ((((f, p), fr) : (FileId × PageId) × FrameId) :: s.mgr.hashTable)
      have h12 : (((((s.descOf fr).Set f p).file,
          ((s.descOf fr).Set f p).pageNo), fr) :
          (FileId × PageId) × FrameId) = ((f, p), fr) := rfl
      rw [h12]
      exact List.mem_cons_self _ _
    · have := hfree.validEnt j hj (fun h => hc h.symm) hjv
      exact List.mem_cons_of_mem _ this
  · intro j hj hjv
    rw [hdo j] at hjv ⊢
    split_ifs at hjv ⊢ with hc
    · exact Bool.noConfusion hjv
    · exact hfree.invalidFile j hj (fun h => hc h.symm) hjv
  · intro e he
    cases List.mem_cons.mp he with
    | inl hc =>
      rw [hc]
      exact hfresh
    | inr hc => exact hfree.htFresh e hc

theorem readPage_inv {fuel : Nat} {s : SysState} {f : FileId} {p : PageId}
    {fr : FrameId} {s' : SysState} (hinv : Inv s)
    (h : readPage fuel s f p = some (.ok fr, s')) : Inv s' := by
  unfold readPage at h
  split at h
  · -- hit
    exact (congrArg Inv (congrArg Prod.snd (Option.some.inj h))).mp
      (Inv_setDesc_same hinv rfl rfl rfl)
  · -- miss
    rename_i heq
    split at h
    · exact Option.noConfusion h
    · exact Except.noConfusion (congrArg Prod.fst (Option.some.inj h))
    · rename_i fr0 s1 halloc
      obtain ⟨hfree, hsub, hnext, hkeys, hnum⟩ :=
        allocBufLoop_ok fuel false s s1 fr0 hinv halloc
      split at h
      · exact Except.noConfusion (congrArg Prod.fst (Option.some.inj h))
      · rename_i pg s2 hread
        have hrd : s1.disk.readPage f p = some pg :=
          congrArg Prod.fst hread
        have hs2 : ({ s1 with trace := .readPage f p :: s1.trace } :
            SysState) = s2 := congrArg Prod.snd hread
        have hfresh : p < s1.disk.next f := by
          rw [Disk.readPage] at hrd
          obtain ⟨e, hfind, hpg⟩ := Option.map_eq_some'.mp hrd
          have hm := List.mem_of_find?_eq_some hfind
          have hp' : e.1 = (f, p) := by
            simpa using List.find?_some hfind
          have := hfree.diskFresh e hm
          rw [hp'] at this
          exact this
        have hkey : ∀ e ∈ s1.mgr.hashTable, ¬ e.1 = (f, p) := by
          intro e he
          exact (htLookup_none_iff.mp heq) e (hsub e he)
        subst hs2
        have hfree2 : InvFree { s1 with
            mgr := { s1.mgr with bufPool := s1.mgr.bufPool.set fr0 pg }
            trace := .readPage f p :: s1.trace } fr0 :=
          ⟨hfree.numPos, hfree.descLen, (by
            show (s1.mgr.bufPool.set fr0 pg).length = _
            rw [List.length_set]
            exact hfree.poolLen), hfree.frBound, hfree.frFree,
            hfree.entBound, hfree.entValid, hfree.entFile, hfree.entPage,
            hfree.keysND, hfree.framesND, hfree.validEnt,
            hfree.invalidFile, hfree.htFresh, hfree.diskFresh⟩
        exact (congrArg Inv (congrArg Prod.snd (Option.some.inj h))).mp
          (Inv_install hfree2 hkey hfresh)

theorem allocPage_inv {fuel : Nat} {s : SysState} {f : FileId}
    {pfr : PageId × FrameId} {s' : SysState} (hinv : Inv s)
    (h : allocPage fuel s f = some (.ok pfr, s')) : Inv s' := by
  unfold allocPage at h
  split at h
  · exact Option.noConfusion h
  · exact Except.noConfusion (congrArg Prod.fst (Option.some.inj h))
  · rename_i fr0 s1 halloc
    obtain ⟨hfree, hsub, hnext, hkeys, hnum⟩ :=
      allocBufLoop_ok fuel false s s1 fr0 hinv halloc
    have hfree2 : InvFree { s1 with
        disk := (s1.disk.allocatePage f).2
        trace := .allocatePage f :: s1.trace } fr0 := by
      refine ⟨hfree.numPos, hfree.descLen, hfree.poolLen, hfree.frBound,
        hfree.frFree, hfree.entBound, hfree.entValid, hfree.entFile,
        hfree.entPage, hfree.keysND, hfree.framesND, hfree.validEnt,
        hfree.invalidFile, ?_, ?_⟩
      · intro e he
        show e.1.2 < (s1.disk.allocatePage f).2.next e.1.1
        rw [allocatePage_next]
        split_ifs with hc
        · have h2 := hfree.htFresh e he
          rw [hc] at h2
          exact Nat.lt_succ_of_lt h2
        · exact hfree.htFresh e he
      · intro e he
        show e.1.2 < (s1.disk.allocatePage f).2.next e.1.1
        rw [allocatePage_next]
        have hmem : e ∈ s1.disk.pages ++
            [((f, s1.disk.next f), ⟨s1.disk.next f, 0⟩)] := he
        cases List.mem_append.mp hmem with
        | inl hc =>
          have h2 := hfree.diskFresh e hc
          split_ifs with hg
          · rw [hg] at h2
            exact Nat.lt_succ_of_lt h2
          · exact h2
        | inr hc =>
          have he1 : e = ((f, s1.disk.next f), ⟨s1.disk.next f, 0⟩) := by
            simpa using hc
          rw [he1]
          show s1.disk.next f < _
          split_ifs with hg
          · exact Nat.lt_succ_self _
          · exact absurd rfl hg
    have hkey : ∀ e ∈ s1.mgr.hashTable, ¬ e.1 = (f, s1.disk.next f) := by
      intro e he hc
      have h2 := hfree.htFresh e he
      rw [hc] at h2
      exact absurd h2 (Nat.lt_irrefl _)
    have hfresh : s1.disk.next f < (s1.disk.allocatePage f).2.next f := by
      rw [allocatePage_next, if_pos rfl]
      exact Nat.lt_succ_self _
    exact (congrArg Inv (congrArg Prod.snd (Option.some.inj h))).mp
      (Inv_install hfree2 hkey hfresh)

theorem unPinPage_inv {s : SysState} {f : FileId} {p : PageId} {d : Bool}
    (hinv : Inv s) : Inv (unPinPage s f p d).2 := by
  cases hlk : htLookup s.mgr.hashTable f p with
  | none =>
    rw [unPinPage_not_resident hlk]
    exact hinv
  | some fr =>
    by_cases h0 : (s.descOf fr).pinCnt = 0
    · rw [unPinPage_zero hlk h0]
      exact hinv
    · rw [unPinPage_dec hlk h0]
      exact Inv_setDesc_same hinv rfl rfl rfl

theorem disposePage_inv {s : SysState} {f : FileId} {p : PageId}
    (hinv : Inv s) : Inv (disposePage s f p) := by
  unfold disposePage
  cases hlk : htLookup s.mgr.hashTable f p with
  | none => exact Inv_fileDelete hinv f p
  | some fr =>
    refine Inv_fileDelete ?_ f p
    have hfind := hlk
    rw [htLookup] at hfind
    obtain ⟨e, hfn, hfr⟩ := Option.map_eq_some'.mp hfind
    have hmem := List.mem_of_find?_eq_some hfn
    have hkey : e.1 = (f, p) := by simpa using List.find?_some hfn
    have hbound := hinv.entBound e hmem
    have hval := hinv.entValid e hmem
    have hfile := hinv.entFile e hmem
    have hpage := hinv.entPage e hmem
    rw [hfr] at hbound hval hfile hpage
    have hwant : Inv ((s.setHt (htRemove s.mgr.hashTable (s.descOf fr).file
        (s.descOf fr).pageNo)).setDesc fr (s.descOf fr).clear) :=
      Inv_clear_remove hinv hbound hval
    have hkf : (s.descOf fr).file = f := by
      rw [hfile, hkey]
    have hkp : (s.descOf fr).pageNo = p := by
      rw [hpage, hkey]
    rw [hkf, hkp] at hwant
    exact hwant

theorem flushGo_inv (f : FileId) : ∀ (l : List Nat) (s : SysState),
    Inv s → (flushFileGo f l s).1 = .ok () → Inv (flushFileGo f l s).2 := by
  intro l
  induction l with
  | nil => intro s hinv _; exact hinv
  | cons i rest ih =>
    intro s hinv hok
    rw [flushFileGo_cons] at hok ⊢
    by_cases him : (s.descOf i).file = f
    · rw [if_pos him] at hok ⊢
      by_cases hpin : ¬ (s.descOf i).pinCnt = 0
      · rw [if_pos hpin] at hok
        exact Except.noConfusion hok
      · rw [if_neg hpin] at hok ⊢
        by_cases hval : (s.descOf i).valid = false
        · rw [if_pos hval] at hok
          exact Except.noConfusion hok
        · rw [if_neg hval] at hok ⊢
          by_cases hd : (s.descOf i).dirty = true
          · rw [if_pos hd] at hok ⊢
            refine ih _ ?_ hok
            -- invariant after the write/clear/remove step
            have hval' : (s.descOf i).valid = true := by
              cases hc : (s.descOf i).valid
              · exact absurd hc hval
              · rfl
            have hib : i < s.mgr.numBufs := by
              by_contra hc
              have : s.descOf i = default := descOf_out (by
                rw [hinv.descLen]; omega)
              rw [this] at hval'
              exact Bool.noConfusion hval'
            have hilen : i < s.mgr.bufDescTable.length := by
              rw [hinv.descLen]; exact hib
            have hmid : Inv ((s.fileWrite (s.descOf i).file
                (s.poolOf i)).setDesc i
                { s.descOf i with dirty := false }) :=
              Inv_setDesc_same (Inv_fileWrite hinv _ _) rfl rfl rfl
            have hmb : i < ((s.fileWrite (s.descOf i).file
                (s.poolOf i)).setDesc i
                { s.descOf i with dirty := false }).mgr.numBufs := hib
            have hdmid : ((s.fileWrite (s.descOf i).file
                (s.poolOf i)).setDesc i
                { s.descOf i with dirty := false }).descOf i =
                { s.descOf i with dirty := false } := by
              show ((s.mgr.bufDescTable.set i _).getD i default) = _
              exact getD_set_self hilen
            have hw := Inv_clear_remove hmid hmb (by
              rw [hdmid]
              exact hval')
            rw [hdmid] at hw
            have hfi : ({ s.descOf i with dirty := false } : BufDesc).file =
                (s.descOf i).file := rfl
            have hpi : ({ s.descOf i with dirty := false } : BufDesc).pageNo =
                (s.descOf i).pageNo := rfl
            rw [hfi, hpi] at hw
            have hcl : ({ s.descOf i with dirty := false } : BufDesc).clear =
                (s.descOf i).clear := rfl
            rw [hcl] at hw
            rw [← him]
            exact hw
          · rw [if_neg hd] at hok ⊢
            exact ih _ hinv hok
    · rw [if_neg him] at hok ⊢
      exact ih _ hinv hok

theorem flushFile_inv {s : SysState} {f : FileId} (hinv : Inv s)
    (h : (flushFile s f).1 = .ok ()) : Inv (flushFile s f).2 :=
  flushGo_inv f (List.range s.mgr.numBufs) s hinv h

/-- The descriptor table of a freshly constructed manager: frame `i` carries
`frameNo = i`, `valid = false` and default fields otherwise. -/
theorem init_descOf {n i : Nat} (hi : i < n) :
    (initialState n).descOf i =
      { (default : BufDesc) with frameNo := i, valid := false } := by
  have h1 : (initialState n).descOf i =
      (((List.range n).map
        (fun j => { (default : BufDesc) with frameNo := j, valid := false })).getD
        i default) := rfl
  rw [h1, List.getD_eq_getElem?_getD, List.getElem?_map, List.getElem?_range hi]
  rfl

/-- A freshly constructed system with at least one frame satisfies the
invariant. -/
theorem Inv_initial (n : Nat) (hn : 0 < n) : Inv (initialState n) := by
  refine ⟨hn, ?_, ?_, ?_, ?_, ?_, ?_, ?_, ?_, ?_, ?_, ?_, ?_⟩
  · simp [initialState, BufMgr.init]
  · simp [initialState, BufMgr.init]
  · intro e he; exact absurd he (List.not_mem_nil e)
  · intro e he; exact absurd he (List.not_mem_nil e)
  · intro e he; exact absurd he (List.not_mem_nil e)
  · intro e he; exact absurd he (List.not_mem_nil e)
  · simp [initialState, BufMgr.init]
  · simp [initialState, BufMgr.init]
  · intro i hi hv
    have hi2 : i < n := hi
    rw [init_descOf hi2] at hv
    exact Bool.noConfusion hv
  · intro i hi _
    have hi2 : i < n := hi
    rw [init_descOf hi2]
    rfl
  · intro e he; exact absurd he (List.not_mem_nil e)
  · intro e he; exact absurd he (List.not_mem_nil e)

/-- Every public operation that completes normally preserves the
invariant. -/
theorem runOp_inv {op : PubOp} {fuel : Nat} {s s' : SysState} {u : Unit}
    (hinv : Inv s) (h : runOp op fuel s = some (.ok u, s')) : Inv s' := by
  cases op with
  | read f p =>
    simp only [runOp] at h
    obtain ⟨r, hr, hmap⟩ := Option.map_eq_some'.mp h
    obtain ⟨a, s2⟩ := r
    cases a with
    | error e => exact Except.noConfusion (congrArg Prod.fst hmap)
    | ok fr =>
      have hs2 : s2 = s' := congrArg Prod.snd hmap
      rw [hs2] at hr
      exact readPage_inv hinv hr
  | unpin f p d =>
    have h2 : (unPinPage s f p d).2 = s' :=
      congrArg Prod.snd (Option.some.inj h)
    rw [← h2]
    exact unPinPage_inv hinv
  | newPg f =>
    simp only [runOp] at h
    obtain ⟨r, hr, hmap⟩ := Option.map_eq_some'.mp h
    obtain ⟨a, s2⟩ := r
    cases a with
    | error e => exact Except.noConfusion (congrArg Prod.fst hmap)
    | ok pfr =>
      have hs2 : s2 = s' := congrArg Prod.snd hmap
      rw [hs2] at hr
      exact allocPage_inv hinv hr
  | flush f =>
    have h1 : flushFile s f = (.ok u, s') := Option.some.inj h
    have h3 : (flushFile s f).1 = .ok () := congrArg Prod.fst h1
    have h2 : (flushFile s f).2 = s' := congrArg Prod.snd h1
    rw [← h2]
    exact flushFile_inv hinv h3
  | dispose f p =>
    have h2 : disposePage s f p = s' :=
      congrArg Prod.snd (Option.some.inj h)
    rw [← h2]
    exact disposePage_inv hinv

/-- Running a sequence of public operations that all complete normally
preserves the invariant. -/
theorem runSeq_inv (fuel : Nat) : ∀ (ops : List PubOp) (s s' : SysState),
    Inv s → runSeq fuel ops s = some s' → Inv s' := by
  intro ops
  induction ops with
  | nil =>
    intro s s' hinv h
    rw [← Option.some.inj h]
    exact hinv
  | cons op rest ih =>
    intro s s' hinv h
    unfold runSeq at h
    split at h
    · rename_i u s1 heq
      exact ih s1 s' (runOp_inv hinv heq) h
    all_goals exact Option.noConfusion h

/-- C6: after any sequence of public operations (fetch, unpin, newPage,
flushFile, disposePage) that all complete normally, run from a freshly
constructed manager with at least one frame, the page table and the valid
frames are in bijection: each valid frame's (file, pageNo) pair has exactly
one page-table entry mapping to that frame id, at most one entry maps to
any frame id, and the table size equals the number of valid frames. -/
theorem bijection_after_public_ops (n fuel : Nat) (ops : List PubOp)
    (s' : SysState) (hn : 0 < n)
    (h : runSeq fuel ops (initialState n) = some s') : Bij s'.mgr :=
  Inv_Bij (runSeq_inv fuel ops (initialState n) s' (Inv_initial n hn) h)

/-- Witness for C6: the `newPage`, `newPage`, fetch-hit run from `BufMgr(2)`
completes normally, lands in `pinnedState`, and its page table is in
bijection with its two valid frames. -/
theorem bijection_after_public_ops_witness :
    0 < 2 ∧
    runSeq 10 [.newPg 1, .newPg 1, .read 1 1] (initialState 2) =
      some pinnedState ∧
    Bij pinnedState.mgr :=
  ⟨by decide, rfl,
    bijection_after_public_ops 2 10 [.newPg 1, .newPg 1, .read 1 1]
      pinnedState (by decide) rfl⟩

end BufMgrVerify
